import Mathlib

/-!
# Shallow embedding of the aZero sparse-set repository

The repository contains two near-duplicate C++ class templates:

* `src/include/SparseSet.hpp` — `aZero::DS::SparseSet<IDType, ElementType>`
  with operations `Insert` (copy overload returning `void`, move overload
  returning `bool`), `Erase`, `Get`, `GetIfExists`, `Exists`, `ShrinkToFit`,
  `Reserve`, `NumSupportedElements`.
* `src/src/include/SparseSet.h` — `aZero::SparseSet<IDType, ElementType>`
  with operations `Add` (two overloads, both `void`), `Remove`, `Get`,
  `GetIfExists`, `Exists`, `ShrinkToFit`, `ExtendTo`, `NumSupportedElements`,
  plus user-written copy/move constructors and assignment operators.

Both keep three parallel vectors `m_ID_To_Element` (the sparse table),
`m_Element_To_ID` (dense identifier array) and `m_Elements` (dense element
array), plus a live-entry counter `m_CurrentLast`.

Modelling conventions:

* `IDType` is an unsigned integer of bit width `w`; identifiers and the
  counter are `Nat` values, and the arithmetic of the source
  (`m_CurrentLast++`, `m_CurrentLast - 1` on an unsigned type) is modelled
  with explicit `% 2 ^ w` wrap-around.  The sentinel
  `InvalidIndex = std::numeric_limits<IDType>::max()` is `2 ^ w - 1`.
* `std::vector` fields are `List`s.  `vec.at(i)` — which throws
  `std::out_of_range` when `i` is out of bounds — is modelled by an explicit
  bounds check; a method that can throw returns `Except σ ρ` where the
  `error` constructor carries the state of the object at the moment the
  exception escapes (the C++ object survives the throw with all mutations
  performed so far).  Methods that cannot observably fail return plain
  values.
* `std::vector::resize(n)` is `listResize`, `push_back` is list append,
  `vec[i] = x` through a checked reference is `List.set`.
-/

/-- `std::numeric_limits<IDType>::max()` for an unsigned `IDType` of bit
width `w`; used as the sentinel for "absent" by both variants
(`InvalidIndex` in the .hpp variant, `m_EmptyIndex` in the .h variant). -/
def InvalidIndex (w : Nat) : Nat := 2 ^ w - 1

/-- `std::vector::resize (n, dflt)`: truncate to `n` when shrinking,
pad with `dflt` when growing. -/
def listResize (l : List α) (n : Nat) (dflt : α) : List α :=
  if n ≤ l.length then l.take n else l ++ List.replicate (n - l.length) dflt

/-- The object state a call leaves behind when the call either returns
normally or lets an exception escape: a `void` method is modelled as
`Except σ σ`, and either way the object persists. -/
def afterVoid (r : Except σ σ) : σ :=
  match r with
  | Except.ok s => s
  | Except.error s => s

/-- Like `afterVoid` for a `bool`-returning method modelled as
`Except σ (Bool × σ)`. -/
def afterBool (r : Except σ (Bool × σ)) : σ :=
  match r with
  | Except.ok p => p.2
  | Except.error s => s

namespace Hpp

/-- State of `aZero::DS::SparseSet<IDType, ElementType>`
(`src/include/SparseSet.hpp`): the three private vectors and the live
counter, in declaration order.  `w` is the bit width of `IDType`. -/
structure SparseSet (w : Nat) (α : Type) where
  m_ID_To_Element : List Nat
  m_Element_To_ID : List Nat
  m_Elements : List α
  m_CurrentLast : Nat
deriving Repr, DecidableEq

/-- Default constructor: all vectors empty, `m_CurrentLast = 0`. -/
def SparseSet.mkEmpty (w : Nat) (α : Type) : SparseSet w α :=
  ⟨[], [], [], 0⟩

/-- Sized constructor `SparseSet(IDType numElements)`: the sparse table is
`numElements` copies of `InvalidIndex`. -/
def SparseSet.mkSized (w : Nat) (α : Type) (numElements : Nat) : SparseSet w α :=
  ⟨List.replicate numElements (InvalidIndex w), [], [], 0⟩

/-- `NumSupportedElements()`: the sparse table's length. -/
def SparseSet.NumSupportedElements (s : SparseSet w α) : Nat :=
  s.m_ID_To_Element.length

/-- `Exists(IDType id)`: `false` when `id` is at or beyond the sparse
table's length, otherwise whether the sparse entry differs from the
sentinel. -/
def SparseSet.Exists (s : SparseSet w α) (id : Nat) : Bool :=
  if id ≥ s.m_ID_To_Element.length then false
  else (s.m_ID_To_Element.getD id 0) != InvalidIndex w

/-- Tail of both `Insert` overloads:
`m_ID_To_Element.at(id) = m_CurrentLast; m_CurrentLast++;`.
The `at` call throws when `id` is out of the sparse table's range; the
increment wraps at the width of `IDType`. -/
def SparseSet.insertFinish (s : SparseSet w α) (id : Nat) :
    Except (SparseSet w α) (SparseSet w α) :=
  if id < s.m_ID_To_Element.length then
    Except.ok { s with
      m_ID_To_Element := s.m_ID_To_Element.set id s.m_CurrentLast,
      m_CurrentLast := (s.m_CurrentLast + 1) % 2 ^ w }
  else Except.error s

/-- Body shared by both `Insert` overloads, entered when `!Exists(id)`:
either overwrite the stale dense slot at `m_CurrentLast` (when
`m_CurrentLast < m_Elements.size()`) or push a new entry, then run
`insertFinish`.  The write `m_Element_To_ID.at(m_CurrentLast) = id` can
itself throw when the two dense vectors have different lengths. -/
def SparseSet.insertCore (s : SparseSet w α) (id : Nat) (element : α) :
    Except (SparseSet w α) (SparseSet w α) :=
  if s.m_CurrentLast < s.m_Elements.length then
    let s1 : SparseSet w α :=
      { s with m_Elements := s.m_Elements.set s.m_CurrentLast element }
    if s.m_CurrentLast < s1.m_Element_To_ID.length then
      SparseSet.insertFinish
        { s1 with m_Element_To_ID := s1.m_Element_To_ID.set s.m_CurrentLast id } id
    else Except.error s1
  else
    SparseSet.insertFinish
      { s with m_Elements := s.m_Elements ++ [element],
               m_Element_To_ID := s.m_Element_To_ID ++ [id] } id

/-- `void Insert(IDType id, const ElementType& element)`: no-op when the
identifier already exists, otherwise the shared insertion body. -/
def SparseSet.Insert (s : SparseSet w α) (id : Nat) (element : α) :
    Except (SparseSet w α) (SparseSet w α) :=
  if s.Exists id then Except.ok s
  else s.insertCore id element

/-- `bool Insert(IDType id, ElementType&& element)`: identical bookkeeping
to the copy overload (moving a value is value transfer in the model), but
reports whether an entry was created. -/
def SparseSet.InsertMove (s : SparseSet w α) (id : Nat) (element : α) :
    Except (SparseSet w α) (Bool × SparseSet w α) :=
  if s.Exists id then Except.ok (false, s)
  else (s.insertCore id element).map (fun t => (true, t))

/-- Tail of `Erase`: `m_ID_To_Element.at(id) = InvalidIndex;
m_CurrentLast--;` (the decrement wraps on the unsigned `IDType`).  `Erase`
only reaches this after `Exists(id)`, so the `at` is in range. -/
def SparseSet.eraseFinish (s : SparseSet w α) (id : Nat) : Bool × SparseSet w α :=
  (true, { s with
    m_ID_To_Element := s.m_ID_To_Element.set id (InvalidIndex w),
    m_CurrentLast := (s.m_CurrentLast + (2 ^ w - 1)) % 2 ^ w })

/-- `bool Erase(IDType id)`: swap-and-pop removal.  `LastIndex =
m_CurrentLast - 1` wraps on the unsigned `IDType`; each `at` that can be
out of range in a malformed state is modelled as a potential throw carrying
the state mutated so far. -/
def SparseSet.Erase (s : SparseSet w α) (id : Nat) :
    Except (SparseSet w α) (Bool × SparseSet w α) :=
  if s.Exists id then
    let LastIndex := (s.m_CurrentLast + (2 ^ w - 1)) % 2 ^ w
    let RemovedElementIndex := s.m_ID_To_Element.getD id 0
    if RemovedElementIndex = LastIndex then
      Except.ok (s.eraseFinish id)
    else
      if hL : LastIndex < s.m_Elements.length then
        if RemovedElementIndex < s.m_Elements.length then
          let s1 : SparseSet w α := { s with
            m_Elements := s.m_Elements.set RemovedElementIndex
              (s.m_Elements.get ⟨LastIndex, hL⟩) }
          if LastIndex < s1.m_Element_To_ID.length then
            let LastElementID := s1.m_Element_To_ID.getD LastIndex 0
            if LastElementID < s1.m_ID_To_Element.length then
              let s2 : SparseSet w α := { s1 with
                m_ID_To_Element := s1.m_ID_To_Element.set LastElementID RemovedElementIndex }
              if RemovedElementIndex < s2.m_Element_To_ID.length then
                Except.ok (SparseSet.eraseFinish
                  { s2 with m_Element_To_ID :=
                      s2.m_Element_To_ID.set RemovedElementIndex LastElementID } id)
              else Except.error s2
            else Except.error s1
          else Except.error s1
        else Except.error s
      else Except.error s
  else Except.ok (false, s)

/-- `ElementType& Get(IDType id)`: `m_ID_To_Element.at(id)` then
`m_Elements.at(elementIndex)`; `none` models the `std::out_of_range`
throw of either `at`. -/
def SparseSet.Get (s : SparseSet w α) (id : Nat) : Option α :=
  if h : id < s.m_ID_To_Element.length then
    let elementIndex := s.m_ID_To_Element.get ⟨id, h⟩
    if h2 : elementIndex < s.m_Elements.length then
      some (s.m_Elements.get ⟨elementIndex, h2⟩)
    else none
  else none

/-- `GetIfExists(IDType id)`: `Except.ok none` is `std::nullopt`,
`Except.ok (some v)` a populated optional, `Except.error ()` the (dead in
well-formed states) possibility that the inner `at` throws. -/
def SparseSet.GetIfExists (s : SparseSet w α) (id : Nat) : Except Unit (Option α) :=
  if s.Exists id then
    if h : id < s.m_ID_To_Element.length then
      let elementIndex := s.m_ID_To_Element.get ⟨id, h⟩
      if h2 : elementIndex < s.m_Elements.length then
        Except.ok (some (s.m_Elements.get ⟨elementIndex, h2⟩))
      else Except.error ()
    else Except.error ()
  else Except.ok none

/-- `GetData()`: the dense element vector. -/
def SparseSet.GetData (s : SparseSet w α) : List α := s.m_Elements

/-- `ShrinkToFit()`: `resize` both dense vectors to `m_CurrentLast`
(`shrink_to_fit` itself only affects capacity, which the model does not
track).  `resize` value-initializes any new slots, hence the `Inhabited`
requirement. -/
def SparseSet.ShrinkToFit [Inhabited α] (s : SparseSet w α) : SparseSet w α :=
  { s with
    m_Elements := listResize s.m_Elements s.m_CurrentLast default,
    m_Element_To_ID := listResize s.m_Element_To_ID s.m_CurrentLast 0 }

/-- `Reserve(IDType numEntries)`: grow the sparse table to `numEntries`
slots filled with the sentinel, only when strictly larger than the current
length. -/
def SparseSet.Reserve (s : SparseSet w α) (numEntries : Nat) : SparseSet w α :=
  if numEntries > s.m_ID_To_Element.length then
    { s with m_ID_To_Element := listResize s.m_ID_To_Element numEntries (InvalidIndex w) }
  else s

/-- The compiler-generated copy constructor of the .hpp variant: memberwise
copy of all four fields (the class declares no special member functions). -/
def SparseSet.copyCtor (other : SparseSet w α) : SparseSet w α := other

end Hpp

namespace Hdr

/-- State of `aZero::SparseSet<IDType, ElementType>`
(`src/src/include/SparseSet.h`): same four members as the .hpp variant
(`m_CurrentLast` carries the in-class initializer `= 0`). -/
structure SparseSet (w : Nat) (α : Type) where
  m_ID_To_Element : List Nat
  m_Element_To_ID : List Nat
  m_Elements : List α
  m_CurrentLast : Nat
deriving Repr, DecidableEq

/-- `m_EmptyIndex`: the sentinel `std::numeric_limits<IDType>::max()`. -/
def m_EmptyIndex (w : Nat) : Nat := 2 ^ w - 1

/-- `SparseSet() = default`: every member default-initialized,
`m_CurrentLast = 0` from its in-class initializer. -/
def SparseSet.mkEmpty (w : Nat) (α : Type) : SparseSet w α :=
  ⟨[], [], [], 0⟩

/-- `SparseSet(IDType NumElements)`: resize the sparse table to
`NumElements` slots of `m_EmptyIndex`. -/
def SparseSet.mkSized (w : Nat) (α : Type) (NumElements : Nat) : SparseSet w α :=
  ⟨List.replicate NumElements (m_EmptyIndex w), [], [], 0⟩

/-- `SparseSet(const SparseSet& Other)`: copies the three vectors but NOT
`m_CurrentLast`, which keeps its in-class initializer `0`. -/
def SparseSet.copyCtor (Other : SparseSet w α) : SparseSet w α :=
  ⟨Other.m_ID_To_Element, Other.m_Element_To_ID, Other.m_Elements, 0⟩

/-- `operator=(const SparseSet& Other)`: assigns the three vectors but NOT
`m_CurrentLast`, which keeps the destination's previous value. -/
def SparseSet.copyAssign (dst Other : SparseSet w α) : SparseSet w α :=
  ⟨Other.m_ID_To_Element, Other.m_Element_To_ID, Other.m_Elements, dst.m_CurrentLast⟩

/-- `NumSupportedElements()`. -/
def SparseSet.NumSupportedElements (s : SparseSet w α) : Nat :=
  s.m_ID_To_Element.length

/-- `Exists(IDType ID)`. -/
def SparseSet.Exists (s : SparseSet w α) (ID : Nat) : Bool :=
  if ID ≥ s.m_ID_To_Element.length then false
  else (s.m_ID_To_Element.getD ID 0) != m_EmptyIndex w

/-- Tail of both `Add` overloads:
`m_ID_To_Element.at(ID) = m_CurrentLast; m_CurrentLast++;`. -/
def SparseSet.addFinish (s : SparseSet w α) (ID : Nat) :
    Except (SparseSet w α) (SparseSet w α) :=
  if ID < s.m_ID_To_Element.length then
    Except.ok { s with
      m_ID_To_Element := s.m_ID_To_Element.set ID s.m_CurrentLast,
      m_CurrentLast := (s.m_CurrentLast + 1) % 2 ^ w }
  else Except.error s

/-- Body shared by both `Add` overloads, entered when `!Exists(ID)`. -/
def SparseSet.addCore (s : SparseSet w α) (ID : Nat) (Element : α) :
    Except (SparseSet w α) (SparseSet w α) :=
  if s.m_CurrentLast < s.m_Elements.length then
    let s1 : SparseSet w α :=
      { s with m_Elements := s.m_Elements.set s.m_CurrentLast Element }
    if s.m_CurrentLast < s1.m_Element_To_ID.length then
      SparseSet.addFinish
        { s1 with m_Element_To_ID := s1.m_Element_To_ID.set s.m_CurrentLast ID } ID
    else Except.error s1
  else
    SparseSet.addFinish
      { s with m_Elements := s.m_Elements ++ [Element],
               m_Element_To_ID := s.m_Element_To_ID ++ [ID] } ID

/-- `void Add(IDType ID, const ElementType& Element)`. -/
def SparseSet.Add (s : SparseSet w α) (ID : Nat) (Element : α) :
    Except (SparseSet w α) (SparseSet w α) :=
  if s.Exists ID then Except.ok s
  else s.addCore ID Element

/-- `void Add(IDType ID, ElementType&& Element)`: identical bookkeeping
(move is value transfer in the model). -/
def SparseSet.AddMove (s : SparseSet w α) (ID : Nat) (Element : α) :
    Except (SparseSet w α) (SparseSet w α) :=
  if s.Exists ID then Except.ok s
  else s.addCore ID Element

/-- Tail of `Remove`: `m_ID_To_Element.at(ID) = m_EmptyIndex;
m_CurrentLast--;`. -/
def SparseSet.removeFinish (s : SparseSet w α) (ID : Nat) : SparseSet w α :=
  { s with
    m_ID_To_Element := s.m_ID_To_Element.set ID (m_EmptyIndex w),
    m_CurrentLast := (s.m_CurrentLast + (2 ^ w - 1)) % 2 ^ w }

/-- `void Remove(IDType ID)`: the same swap-and-pop body as the .hpp
variant's `Erase`, but returning nothing. -/
def SparseSet.Remove (s : SparseSet w α) (ID : Nat) :
    Except (SparseSet w α) (SparseSet w α) :=
  if s.Exists ID then
    let LastIndex := (s.m_CurrentLast + (2 ^ w - 1)) % 2 ^ w
    let RemovedElementIndex := s.m_ID_To_Element.getD ID 0
    if RemovedElementIndex = LastIndex then
      Except.ok (s.removeFinish ID)
    else
      if hL : LastIndex < s.m_Elements.length then
        if RemovedElementIndex < s.m_Elements.length then
          let s1 : SparseSet w α := { s with
            m_Elements := s.m_Elements.set RemovedElementIndex
              (s.m_Elements.get ⟨LastIndex, hL⟩) }
          if LastIndex < s1.m_Element_To_ID.length then
            let LastElementID := s1.m_Element_To_ID.getD LastIndex 0
            if LastElementID < s1.m_ID_To_Element.length then
              let s2 : SparseSet w α := { s1 with
                m_ID_To_Element := s1.m_ID_To_Element.set LastElementID RemovedElementIndex }
              if RemovedElementIndex < s2.m_Element_To_ID.length then
                Except.ok (SparseSet.removeFinish
                  { s2 with m_Element_To_ID :=
                      s2.m_Element_To_ID.set RemovedElementIndex LastElementID } ID)
              else Except.error s2
            else Except.error s1
          else Except.error s1
        else Except.error s
      else Except.error s
  else Except.ok s

/-- `ElementType& Get(IDType ID)`. -/
def SparseSet.Get (s : SparseSet w α) (ID : Nat) : Option α :=
  if h : ID < s.m_ID_To_Element.length then
    let elementIndex := s.m_ID_To_Element.get ⟨ID, h⟩
    if h2 : elementIndex < s.m_Elements.length then
      some (s.m_Elements.get ⟨elementIndex, h2⟩)
    else none
  else none

/-- `GetIfExists(IDType ID)`. -/
def SparseSet.GetIfExists (s : SparseSet w α) (ID : Nat) : Except Unit (Option α) :=
  if s.Exists ID then
    if h : ID < s.m_ID_To_Element.length then
      let elementIndex := s.m_ID_To_Element.get ⟨ID, h⟩
      if h2 : elementIndex < s.m_Elements.length then
        Except.ok (some (s.m_Elements.get ⟨elementIndex, h2⟩))
      else Except.error ()
    else Except.error ()
  else Except.ok none

/-- `GetData()`. -/
def SparseSet.GetData (s : SparseSet w α) : List α := s.m_Elements

/-- `ShrinkToFit()`: `resize` both dense vectors to `m_CurrentLast`. -/
def SparseSet.ShrinkToFit [Inhabited α] (s : SparseSet w α) : SparseSet w α :=
  { s with
    m_Elements := listResize s.m_Elements s.m_CurrentLast default,
    m_Element_To_ID := listResize s.m_Element_To_ID s.m_CurrentLast 0 }

/-- `ExtendTo(IDType NumEntries)`: grow the sparse table, no-op unless
strictly larger. -/
def SparseSet.ExtendTo (s : SparseSet w α) (NumEntries : Nat) : SparseSet w α :=
  if NumEntries > s.m_ID_To_Element.length then
    { s with m_ID_To_Element := listResize s.m_ID_To_Element NumEntries (m_EmptyIndex w) }
  else s

end Hdr

/-! ## List helper lemmas -/

theorem listGetD_set_self (l : List Nat) (i a d : Nat) (h : i < l.length) :
    (l.set i a).getD i d = a := by
  rw [List.getD_eq_getElem _ _ (by simpa using h), List.getElem_set_self]

theorem listGetD_set_ne (l : List Nat) (i j a d : Nat) (h : i ≠ j) :
    (l.set i a).getD j d = l.getD j d := by
  simp [List.getD_eq_getD_get?, List.get?_eq_getElem?, List.getElem?_set_ne h]

theorem listGetD_replicate (n i d x : Nat) (h : i < n) :
    (List.replicate n x).getD i d = x := by
  rw [List.getD_eq_getElem _ _ (by simpa using h)]; simp

theorem listGetD_append_left (l l' : List Nat) (d n : Nat) (h : n < l.length) :
    (l ++ l').getD n d = l.getD n d :=
  List.getD_append _ _ _ _ h

theorem listGetD_append_last (l : List Nat) (x d : Nat) :
    (l ++ [x]).getD l.length d = x := by
  rw [List.getD_append_right _ _ _ _ (Nat.le_refl _)]; simp

theorem listGetD_take (l : List Nat) (n i d : Nat) (h : i < n) (h2 : i < l.length) :
    (l.take n).getD i d = l.getD i d := by
  rw [List.getD_eq_getElem _ _ (by simp; omega), List.getD_eq_getElem _ _ h2]
  simp [List.getElem_take]

theorem listGetD_congr (l : List Nat) (i : Nat) (h : i < l.length) (d d' : Nat) :
    l.getD i d = l.getD i d' := by
  rw [List.getD_eq_getElem _ _ h, List.getD_eq_getElem _ _ h]

theorem listGetD_eq_get (l : List Nat) (i : Nat) (h : i < l.length) (d : Nat) :
    l.getD i d = l.get ⟨i, h⟩ := by
  rw [List.getD_eq_getElem _ _ h]; simp

theorem listResize_of_le (l : List α) (n : Nat) (d : α) (h : n ≤ l.length) :
    listResize l n d = l.take n := by
  simp [listResize, h]

/-! ## Abstraction functions and invariants (stated over the .hpp variant) -/

namespace Hpp

/-- The sparse-table entry for `id`; reads beyond the table as the
sentinel, which is exactly how `Exists` treats them. -/
def sparseAt (s : SparseSet w α) (id : Nat) : Nat :=
  s.m_ID_To_Element.getD id (InvalidIndex w)

/-- The dense identifier array entry at position `p`. -/
def denseIdAt (s : SparseSet w α) (p : Nat) : Nat :=
  s.m_Element_To_ID.getD p 0

/-- The two consistency invariants of the spec's data model, quantified
over in-range identifiers (decidable, used as a hypothesis):
1. every non-sentinel sparse entry `pos` satisfies `pos < count` and
   `denseIdentifierArray[pos] = id`;
2. for every `pos < count`, `sparseTable[denseIdentifierArray[pos]] = pos`
   (with the identifier in range of the sparse table). -/
def TwoInvs (s : SparseSet w α) : Prop :=
  (∀ id, id < s.NumSupportedElements → sparseAt s id ≠ InvalidIndex w →
      sparseAt s id < s.m_CurrentLast ∧ denseIdAt s (sparseAt s id) = id) ∧
  (∀ p, p < s.m_CurrentLast →
      denseIdAt s p < s.NumSupportedElements ∧ sparseAt s (denseIdAt s p) = p)

/-- Structural well-formedness: parallel dense arrays, live prefix within
them, counter and sparse-table length within the representable range of
`IDType` (both hold in every reachable C++ state: the counter counts
distinct stored identifiers and the ctor/`Reserve` arguments are `IDType`
values), plus the two consistency invariants. -/
def WFcore (s : SparseSet w α) : Prop :=
  s.m_Element_To_ID.length = s.m_Elements.length ∧
  s.m_CurrentLast ≤ s.m_Elements.length ∧
  s.m_CurrentLast ≤ InvalidIndex w ∧
  s.NumSupportedElements ≤ InvalidIndex w ∧
  TwoInvs s

/-- `WFcore` plus a bound on the dense length (also true in every state
reached without a prior contract violation: the dense arrays never grow
beyond the number of distinct representable identifiers). -/
def WFfull (s : SparseSet w α) : Prop :=
  WFcore s ∧ s.m_Elements.length ≤ InvalidIndex w

/-- `Exists` in terms of `sparseAt`: out-of-range reads default to the
sentinel, which collapses both "absent" cases. -/
theorem exists_eq_sparseAt (s : SparseSet w α) (id : Nat) :
    s.Exists id = (sparseAt s id != InvalidIndex w) := by
  unfold SparseSet.Exists sparseAt
  by_cases h : id < s.m_ID_To_Element.length
  · rw [if_neg (by omega), listGetD_congr _ _ h 0 (InvalidIndex w)]
  · rw [if_pos (by omega), List.getD_eq_default _ _ (by omega)]
    simp

theorem exists_true_iff (s : SparseSet w α) (id : Nat) :
    s.Exists id = true ↔ sparseAt s id ≠ InvalidIndex w := by
  rw [exists_eq_sparseAt]; simp

theorem exists_false_iff (s : SparseSet w α) (id : Nat) :
    s.Exists id = false ↔ sparseAt s id = InvalidIndex w := by
  rw [exists_eq_sparseAt]; simp

/-- An existing identifier is in range of the sparse table. -/
theorem lt_length_of_exists (s : SparseSet w α) (id : Nat)
    (h : s.Exists id = true) : id < s.m_ID_To_Element.length := by
  by_contra hc
  rw [exists_true_iff] at h
  exact h (by unfold sparseAt; rw [List.getD_eq_default _ _ (by omega)])

/-- `Get` returns exactly the dense element at the identifier's sparse
entry whenever that entry is within the dense array. -/
theorem get_eq_of_lt (s : SparseSet w α) (id : Nat)
    (hid : id < s.m_ID_To_Element.length)
    (hpos : sparseAt s id < s.m_Elements.length) :
    s.Get id = s.m_Elements[sparseAt s id]? := by
  unfold SparseSet.Get
  rw [dif_pos hid]
  have he : sparseAt s id = s.m_ID_To_Element.get ⟨id, hid⟩ :=
    listGetD_eq_get _ _ hid _
  rw [← he, dif_pos hpos, List.getElem?_eq_getElem hpos]
  simp [List.get_eq_getElem]

end Hpp

namespace Hpp

/-! ## Characterization of `Insert` -/

theorem insert_noop (s : SparseSet w α) (id : Nat) (v : α)
    (hex : s.Exists id = true) :
    s.Insert id v = Except.ok s ∧ s.InsertMove id v = Except.ok (false, s) := by
  unfold SparseSet.Insert SparseSet.InsertMove
  rw [if_pos hex, if_pos hex]
  exact ⟨rfl, rfl⟩

/-- Successful insert, stale-slot-reuse branch. -/
theorem insert_ok_reuse (s : SparseSet w α) (id : Nat) (v : α)
    (hne : s.Exists id = false)
    (hid : id < s.m_ID_To_Element.length)
    (hlen : s.m_Element_To_ID.length = s.m_Elements.length)
    (hlt : s.m_CurrentLast < s.m_Elements.length) :
    s.Insert id v = Except.ok
      ⟨s.m_ID_To_Element.set id s.m_CurrentLast,
       s.m_Element_To_ID.set s.m_CurrentLast id,
       s.m_Elements.set s.m_CurrentLast v,
       (s.m_CurrentLast + 1) % 2 ^ w⟩ := by
  obtain ⟨sp, eid, el, c⟩ := s
  simp only [SparseSet.Insert, SparseSet.insertCore, SparseSet.insertFinish] at *
  rw [if_neg (by simp [hne]), if_pos hlt, if_pos (by simpa [hlen] using hlt),
    if_pos (by simpa using hid)]

/-- Successful insert, push-back branch. -/
theorem insert_ok_push (s : SparseSet w α) (id : Nat) (v : α)
    (hne : s.Exists id = false)
    (hid : id < s.m_ID_To_Element.length)
    (hge : s.m_Elements.length ≤ s.m_CurrentLast) :
    s.Insert id v = Except.ok
      ⟨s.m_ID_To_Element.set id s.m_CurrentLast,
       s.m_Element_To_ID ++ [id],
       s.m_Elements ++ [v],
       (s.m_CurrentLast + 1) % 2 ^ w⟩ := by
  obtain ⟨sp, eid, el, c⟩ := s
  simp only [SparseSet.Insert, SparseSet.insertCore, SparseSet.insertFinish] at *
  rw [if_neg (by simp [hne]), if_neg (by omega), if_pos (by simpa using hid)]

/-- Failing insert (out-of-range identifier), stale-slot-reuse branch: the
dense arrays are already mutated when `m_ID_To_Element.at(id)` throws. -/
theorem insert_err_reuse (s : SparseSet w α) (id : Nat) (v : α)
    (hne : s.Exists id = false)
    (hid : s.m_ID_To_Element.length ≤ id)
    (hlen : s.m_Element_To_ID.length = s.m_Elements.length)
    (hlt : s.m_CurrentLast < s.m_Elements.length) :
    s.Insert id v = Except.error
      ⟨s.m_ID_To_Element,
       s.m_Element_To_ID.set s.m_CurrentLast id,
       s.m_Elements.set s.m_CurrentLast v,
       s.m_CurrentLast⟩ := by
  obtain ⟨sp, eid, el, c⟩ := s
  simp only [SparseSet.Insert, SparseSet.insertCore, SparseSet.insertFinish] at *
  rw [if_neg (by simp [hne]), if_pos hlt, if_pos (by simpa [hlen] using hlt),
    if_neg (by simpa using hid)]

/-- Failing insert (out-of-range identifier), push-back branch. -/
theorem insert_err_push (s : SparseSet w α) (id : Nat) (v : α)
    (hne : s.Exists id = false)
    (hid : s.m_ID_To_Element.length ≤ id)
    (hge : s.m_Elements.length ≤ s.m_CurrentLast) :
    s.Insert id v = Except.error
      ⟨s.m_ID_To_Element,
       s.m_Element_To_ID ++ [id],
       s.m_Elements ++ [v],
       s.m_CurrentLast⟩ := by
  obtain ⟨sp, eid, el, c⟩ := s
  simp only [SparseSet.Insert, SparseSet.insertCore, SparseSet.insertFinish] at *
  rw [if_neg (by simp [hne]), if_neg (by omega), if_neg (by simpa using hid)]

/-- The move overload runs the same body; its result is the copy
overload's with the created-flag paired in. -/
theorem insertMove_eq (s : SparseSet w α) (id : Nat) (v : α) :
    s.InsertMove id v =
      if s.Exists id then Except.ok (false, s)
      else (s.Insert id v).map (fun t => (true, t)) := by
  unfold SparseSet.InsertMove SparseSet.Insert
  by_cases hex : s.Exists id <;> simp [hex]

/-! ## Counting: a well-formed set with an absent in-range identifier has
`m_CurrentLast` strictly below the sparse-table length. -/

theorem count_lt_of_absent (s : SparseSet w α)
    (hWF : WFcore s) (id : Nat)
    (hid : id < s.NumSupportedElements) (hne : s.Exists id = false) :
    s.m_CurrentLast < s.NumSupportedElements := by
  obtain ⟨hlen, hcle, hcinv, hLinv, hinv1, hinv2⟩ := hWF
  have hsid : sparseAt s id = InvalidIndex w := (exists_false_iff s id).mp hne
  have hmaps : ∀ p ∈ Finset.range s.m_CurrentLast,
      denseIdAt s p ∈ (Finset.range s.NumSupportedElements).erase id := by
    intro p hp
    rw [Finset.mem_range] at hp
    obtain ⟨hlt, hsp⟩ := hinv2 p hp
    rw [Finset.mem_erase, Finset.mem_range]
    refine ⟨?_, hlt⟩
    intro hcontra
    rw [hcontra, hsid] at hsp
    omega
  have hinj : Set.InjOn (denseIdAt s) (Finset.range s.m_CurrentLast) := by
    intro p hp q hq hpq
    rw [Finset.coe_range, Set.mem_Iio] at hp hq
    have h1 := (hinv2 p hp).2
    have h2 := (hinv2 q hq).2
    rw [hpq] at h1
    omega
  have hcard := Finset.card_le_card_of_injOn (denseIdAt s) hmaps hinj
  rw [Finset.card_range, Finset.card_erase_of_mem (Finset.mem_range.mpr hid),
    Finset.card_range] at hcard
  omega

end Hpp

namespace Hpp

/-! ## Characterization of `Erase` -/

theorem erase_absent (s : SparseSet w α) (id : Nat)
    (hne : s.Exists id = false) :
    s.Erase id = Except.ok (false, s) := by
  unfold SparseSet.Erase
  rw [if_neg (by simp [hne])]

/-- Facts available at the head of `Erase`'s present branch: the
identifier is in range, its dense position is a live one owned by it,
the count is positive, and the unsigned decrement does not wrap. -/
theorem erase_setup (s : SparseSet w α) (id : Nat)
    (hWF : WFcore s) (hex : s.Exists id = true) :
    id < s.m_ID_To_Element.length ∧
    sparseAt s id < s.m_CurrentLast ∧
    denseIdAt s (sparseAt s id) = id ∧
    1 ≤ s.m_CurrentLast ∧
    (s.m_CurrentLast + (2 ^ w - 1)) % 2 ^ w = s.m_CurrentLast - 1 := by
  obtain ⟨hlen, hcle, hcinv, hLinv, hinv1, hinv2⟩ := hWF
  have hid : id < s.m_ID_To_Element.length := lt_length_of_exists s id hex
  have hval : sparseAt s id ≠ InvalidIndex w := (exists_true_iff s id).mp hex
  obtain ⟨hrc, hden⟩ := hinv1 id hid hval
  have hpw : 0 < 2 ^ w := Nat.pos_pow_of_pos w (by omega)
  have hcw : s.m_CurrentLast < 2 ^ w := by unfold InvalidIndex at hcinv; omega
  refine ⟨hid, hrc, hden, by omega, ?_⟩
  have h1 : s.m_CurrentLast + (2 ^ w - 1) = (s.m_CurrentLast - 1) + 2 ^ w := by omega
  rw [h1, Nat.add_mod_right, Nat.mod_eq_of_lt (by omega)]

/-- `Erase` when the removed entry is the last live one: no swap, just
invalidate and decrement. -/
theorem erase_ok_last (s : SparseSet w α) (id : Nat)
    (hWF : WFcore s) (hex : s.Exists id = true)
    (hlast : sparseAt s id = s.m_CurrentLast - 1) :
    s.Erase id = Except.ok (true,
      ⟨s.m_ID_To_Element.set id (InvalidIndex w),
       s.m_Element_To_ID, s.m_Elements, s.m_CurrentLast - 1⟩) := by
  obtain ⟨hid, hrc, hden, hc1, hwrap⟩ := erase_setup s id hWF hex
  have hr : s.m_ID_To_Element.getD id 0 = sparseAt s id :=
    listGetD_congr _ _ hid 0 (InvalidIndex w)
  obtain ⟨sp, eid, el, c⟩ := s
  simp only [SparseSet.Erase, SparseSet.eraseFinish] at *
  rw [if_pos hex]
  simp only [hwrap, hr]
  rw [if_pos hlast]

/-- `Erase` when the removed entry is not the last live one: the value at
`lastPos` is relocated into the vacated slot, the moved identifier's
sparse entry is redirected, the dense identifier array is patched, then
the erased identifier is invalidated and the count decremented. -/
theorem erase_ok_swap (s : SparseSet w α) (id : Nat)
    (hWF : WFcore s) (hex : s.Exists id = true)
    (hnl : sparseAt s id ≠ s.m_CurrentLast - 1)
    (hc1 : s.m_CurrentLast - 1 < s.m_Elements.length) :
    s.Erase id = Except.ok (true,
      ⟨(s.m_ID_To_Element.set (denseIdAt s (s.m_CurrentLast - 1)) (sparseAt s id)).set
          id (InvalidIndex w),
       s.m_Element_To_ID.set (sparseAt s id) (denseIdAt s (s.m_CurrentLast - 1)),
       s.m_Elements.set (sparseAt s id) (s.m_Elements.get ⟨s.m_CurrentLast - 1, hc1⟩),
       s.m_CurrentLast - 1⟩) := by
  obtain ⟨hid, hrc, hden, hc, hwrap⟩ := erase_setup s id hWF hex
  obtain ⟨hlen, hcle, hcinv, hLinv, hinv1, hinv2⟩ := hWF
  have hr : s.m_ID_To_Element.getD id 0 = sparseAt s id :=
    listGetD_congr _ _ hid 0 (InvalidIndex w)
  have hrel : sparseAt s id < s.m_Elements.length := by omega
  have hmlt : denseIdAt s (s.m_CurrentLast - 1) < s.m_ID_To_Element.length :=
    (hinv2 (s.m_CurrentLast - 1) (by omega)).1
  obtain ⟨sp, eid, el, c⟩ := s
  simp only [SparseSet.Erase, SparseSet.eraseFinish, SparseSet.NumSupportedElements,
    denseIdAt, sparseAt] at *
  rw [if_pos hex]
  simp only [hwrap, hr]
  rw [if_neg hnl, dif_pos hc1, if_pos hrel, if_pos (by simpa [hlen] using hc1),
    if_pos (by simpa using hmlt), if_pos (by simpa [hlen] using hrel)]

end Hpp

namespace Hpp

/-! ## Preservation of well-formedness -/

/-- `TwoInvs` only reads the sparse table, the counter, and the dense
identifier array's live prefix. -/
theorem TwoInvs_congr (sp eid eid' : List Nat) (el el' : List α) (c : Nat)
    (h1 : ∀ p, p < c → eid'.getD p 0 = eid.getD p 0)
    (hT : TwoInvs (⟨sp, eid, el, c⟩ : SparseSet w α)) :
    TwoInvs (⟨sp, eid', el', c⟩ : SparseSet w α) := by
  simp only [TwoInvs, sparseAt, denseIdAt, SparseSet.NumSupportedElements] at *
  obtain ⟨hi1, hi2⟩ := hT
  constructor
  · intro id hid hval
    obtain ⟨ha, hb⟩ := hi1 id hid hval
    exact ⟨ha, by rw [h1 _ ha]; exact hb⟩
  · intro p hp
    obtain ⟨ha, hb⟩ := hi2 p hp
    rw [h1 _ hp]
    exact ⟨ha, hb⟩

/-- Core invariant step for a successful insertion: writing the fresh
identifier's bookkeeping at position `c` and enabling position `c`
preserves the two invariants. -/
theorem TwoInvs_insert_step (sp eid eid' : List Nat) (el el' : List α)
    (c id : Nat)
    (hid : id < sp.length)
    (hsid : sp.getD id (InvalidIndex w) = InvalidIndex w)
    (hcI : c ≤ InvalidIndex w)
    (hcne : c ≠ InvalidIndex w)
    (heidc : eid'.getD c 0 = id)
    (heidlt : ∀ p, p < c → eid'.getD p 0 = eid.getD p 0)
    (hT : TwoInvs (⟨sp, eid, el, c⟩ : SparseSet w α)) :
    TwoInvs (⟨sp.set id c, eid', el', c + 1⟩ : SparseSet w α) := by
  simp only [TwoInvs, sparseAt, denseIdAt, SparseSet.NumSupportedElements,
    List.length_set] at *
  obtain ⟨hi1, hi2⟩ := hT
  constructor
  · intro id' hid' hval
    by_cases he : id' = id
    · subst he
      rw [listGetD_set_self _ _ _ _ hid] at hval ⊢
      exact ⟨by omega, by rw [heidc]⟩
    · rw [listGetD_set_ne _ _ _ _ _ (fun hc => he hc.symm)] at hval ⊢
      obtain ⟨ha, hb⟩ := hi1 id' hid' hval
      exact ⟨by omega, by rw [heidlt _ ha]; exact hb⟩
  · intro p hp
    by_cases hpc : p = c
    · subst hpc
      rw [heidc, listGetD_set_self _ _ _ _ hid]
      exact ⟨hid, rfl⟩
    · have hplt : p < c := by omega
      obtain ⟨ha, hb⟩ := hi2 p hplt
      rw [heidlt _ hplt]
      refine ⟨ha, ?_⟩
      have hne : eid.getD p 0 ≠ id := by
        intro hc
        rw [hc, hsid] at hb
        omega
      rw [listGetD_set_ne _ _ _ _ _ (fun hc => hne hc.symm)]
      exact hb

/-- `Insert` leaves a well-formed object behind on every path: a no-op
when the identifier exists, a consistent extension when it is fresh and
in range, and — even when `m_ID_To_Element.at(id)` throws on an
out-of-range identifier — only stale dense slots beyond the live prefix
have been touched. -/
theorem WFcore_insert (s : SparseSet w α) (id : Nat) (v : α)
    (hWF : WFcore s) : WFcore (afterVoid (s.Insert id v)) := by
  by_cases hex : s.Exists id = true
  · rw [(insert_noop s id v hex).1]
    exact hWF
  · have hne : s.Exists id = false := by
      revert hex; cases s.Exists id <;> simp
    obtain ⟨hlen, hcle, hcinv, hLinv, hT⟩ := hWF
    have hsid : sparseAt s id = InvalidIndex w := (exists_false_iff s id).mp hne
    by_cases hid : id < s.m_ID_To_Element.length
    · -- in-range fresh identifier: successful insert
      have hcL : s.m_CurrentLast < s.NumSupportedElements :=
        count_lt_of_absent s ⟨hlen, hcle, hcinv, hLinv, hT⟩ id hid hne
      have hcI : s.m_CurrentLast < InvalidIndex w := by
        unfold SparseSet.NumSupportedElements at hcL hLinv; omega
      have hwrap : (s.m_CurrentLast + 1) % 2 ^ w = s.m_CurrentLast + 1 := by
        apply Nat.mod_eq_of_lt
        unfold InvalidIndex at hcI
        have hpw : 0 < 2 ^ w := Nat.pos_pow_of_pos w (by omega)
        omega
      by_cases hlt : s.m_CurrentLast < s.m_Elements.length
      · rw [insert_ok_reuse s id v hne hid hlen hlt]
        obtain ⟨sp, eid, el, c⟩ := s
        simp only [afterVoid, WFcore, SparseSet.NumSupportedElements, sparseAt,
          List.length_set] at *
        rw [hwrap]
        refine ⟨hlen, by omega, by omega, hLinv, ?_⟩
        apply TwoInvs_insert_step sp eid _ el _ c id hid hsid (by omega) (by omega)
        · exact listGetD_set_self _ _ _ _ (by omega)
        · intro p hp
          exact listGetD_set_ne _ _ _ _ _ (by omega)
        · exact hT
      · rw [insert_ok_push s id v hne hid (by omega)]
        obtain ⟨sp, eid, el, c⟩ := s
        simp only [afterVoid, WFcore, SparseSet.NumSupportedElements, sparseAt,
          List.length_set, List.length_append, List.length_singleton] at *
        rw [hwrap]
        have hceid : c = eid.length := by omega
        refine ⟨by omega, by omega, by omega, hLinv, ?_⟩
        apply TwoInvs_insert_step sp eid _ el _ c id hid hsid (by omega) (by omega)
        · rw [hceid]; exact listGetD_append_last _ _ _
        · intro p hp
          exact listGetD_append_left _ _ _ _ (by omega)
        · exact hT
    · -- out-of-range identifier: the call throws after touching only
      -- stale dense slots
      by_cases hlt : s.m_CurrentLast < s.m_Elements.length
      · rw [insert_err_reuse s id v hne (by omega) hlen hlt]
        obtain ⟨sp, eid, el, c⟩ := s
        simp only [afterVoid, WFcore, SparseSet.NumSupportedElements,
          List.length_set] at *
        refine ⟨hlen, by omega, hcinv, hLinv, ?_⟩
        apply TwoInvs_congr sp eid _ el _ c
        · intro p hp
          exact listGetD_set_ne _ _ _ _ _ (by omega)
        · exact hT
      · rw [insert_err_push s id v hne (by omega) (by omega)]
        obtain ⟨sp, eid, el, c⟩ := s
        simp only [afterVoid, WFcore, SparseSet.NumSupportedElements,
          List.length_append, List.length_singleton] at *
        refine ⟨by omega, by omega, hcinv, hLinv, ?_⟩
        apply TwoInvs_congr sp eid _ el _ c
        · intro p hp
          exact listGetD_append_left _ _ _ _ (by omega)
        · exact hT

end Hpp

namespace Hpp

/-- `Erase` leaves a well-formed object behind: a no-op on an absent
identifier, and both the swap and the no-swap removal paths restore the
two invariants with the count decremented. -/
theorem WFcore_erase (s : SparseSet w α) (id : Nat)
    (hWF : WFcore s) : WFcore (afterBool (s.Erase id)) := by
  by_cases hex : s.Exists id = true
  · obtain ⟨hid, hrc, hden, hc, hwrap⟩ := erase_setup s id hWF hex
    obtain ⟨hlen, hcle, hcinv, hLinv, hT⟩ := hWF
    by_cases hlast : sparseAt s id = s.m_CurrentLast - 1
    · rw [erase_ok_last s id ⟨hlen, hcle, hcinv, hLinv, hT⟩ hex hlast]
      obtain ⟨sp, eid, el, c⟩ := s
      simp only [afterBool, WFcore, TwoInvs, sparseAt, denseIdAt,
        SparseSet.NumSupportedElements, List.length_set] at *
      obtain ⟨hi1, hi2⟩ := hT
      refine ⟨hlen, by omega, by omega, hLinv, ?_, ?_⟩
      · intro id' hid' hval
        by_cases he : id' = id
        · subst he
          rw [listGetD_set_self _ _ _ _ hid] at hval
          omega
        · rw [listGetD_set_ne _ _ _ _ _ (fun hcn => he hcn.symm)] at hval ⊢
          obtain ⟨ha, hb⟩ := hi1 id' hid' hval
          refine ⟨?_, hb⟩
          by_cases hpe : sp.getD id' (InvalidIndex w) = c - 1
          · rw [hpe, ← hlast, hden] at hb
            omega
          · omega
      · intro p hp
        obtain ⟨ha, hb⟩ := hi2 p (by omega)
        refine ⟨ha, ?_⟩
        have hne : eid.getD p 0 ≠ id := by
          intro hcn
          rw [hcn, hlast] at hb
          omega
        rw [listGetD_set_ne _ _ _ _ _ (fun hcn => hne hcn.symm)]
        exact hb
    · have hc1 : s.m_CurrentLast - 1 < s.m_Elements.length := by omega
      have hm := hT.2 (s.m_CurrentLast - 1) (by omega)
      rw [erase_ok_swap s id ⟨hlen, hcle, hcinv, hLinv, hT⟩ hex hlast hc1]
      obtain ⟨hmL, hmval⟩ := hm
      have hmne : denseIdAt s (s.m_CurrentLast - 1) ≠ id := by
        intro hcn
        rw [hcn] at hmval
        omega
      obtain ⟨sp, eid, el, c⟩ := s
      simp only [afterBool, WFcore, TwoInvs, sparseAt, denseIdAt,
        SparseSet.NumSupportedElements, List.length_set] at *
      obtain ⟨hi1, hi2⟩ := hT
      have hrlt : sp.getD id (InvalidIndex w) < c - 1 := by omega
      have hreid : sp.getD id (InvalidIndex w) < eid.length := by omega
      refine ⟨by simp [hlen], by omega, by omega, hLinv, ?_, ?_⟩
      · intro id' hid' hval
        by_cases he : id' = id
        · subst he
          rw [listGetD_set_self _ _ _ _ (by simpa using hid)] at hval
          omega
        · rw [listGetD_set_ne _ _ _ _ _ (fun hcn => he hcn.symm)] at hval ⊢
          by_cases hem : id' = eid.getD (c - 1) 0
          · subst hem
            rw [listGetD_set_self _ _ _ _ hmL] at hval ⊢
            refine ⟨by omega, ?_⟩
            rw [listGetD_set_self _ _ _ _ hreid]
          · rw [listGetD_set_ne _ _ _ _ _ (fun hcn => hem hcn.symm)] at hval ⊢
            obtain ⟨ha, hb⟩ := hi1 id' (by simpa using hid') hval
            have hpr : sp.getD id' (InvalidIndex w) ≠ sp.getD id (InvalidIndex w) := by
              intro hcn
              obtain ⟨ha2, hb2⟩ := hi1 id hid (by omega)
              rw [hcn, hb2] at hb
              exact he hb.symm
            have hpc : sp.getD id' (InvalidIndex w) ≠ c - 1 := by
              intro hcn
              rw [hcn] at hb
              exact hem hb.symm
            refine ⟨by omega, ?_⟩
            rw [listGetD_set_ne _ _ _ _ _ (fun hcn => hpr hcn.symm)]
            exact hb
      · intro p hp
        by_cases hpr : p = sp.getD id (InvalidIndex w)
        · subst hpr
          rw [listGetD_set_self _ _ _ _ hreid]
          refine ⟨hmL, ?_⟩
          rw [listGetD_set_ne _ _ _ _ _ (fun hcn => hmne hcn.symm),
            listGetD_set_self _ _ _ _ hmL]
        · rw [listGetD_set_ne _ _ _ _ _ (fun hcn => hpr hcn.symm)]
          obtain ⟨ha, hb⟩ := hi2 p (by omega)
          have hne1 : eid.getD p 0 ≠ id := by
            intro hcn
            rw [hcn] at hb
            omega
          have hne2 : eid.getD p 0 ≠ eid.getD (c - 1) 0 := by
            intro hcn
            rw [hcn, hmval] at hb
            omega
          refine ⟨ha, ?_⟩
          rw [listGetD_set_ne _ _ _ _ _ (fun hcn => hne1 hcn.symm),
            listGetD_set_ne _ _ _ _ _ (fun hcn => hne2 hcn.symm)]
          exact hb
  · have hne : s.Exists id = false := by
      revert hex; cases s.Exists id <;> simp
    rw [erase_absent s id hne]
    exact hWF

end Hpp

namespace Hpp

/-- The move overload of `Insert` drives the object through exactly the
same states as the copy overload. -/
theorem afterBool_insertMove (s : SparseSet w α) (id : Nat) (v : α) :
    afterBool (s.InsertMove id v) = afterVoid (s.Insert id v) := by
  rw [insertMove_eq]
  unfold SparseSet.Insert
  by_cases hex : s.Exists id
  · simp [hex, afterBool, afterVoid]
  · simp only [hex, if_false]
    cases hc : s.insertCore id v <;> simp [afterBool, afterVoid, Except.map]

theorem WFcore_insertMove (s : SparseSet w α) (id : Nat) (v : α)
    (hWF : WFcore s) : WFcore (afterBool (s.InsertMove id v)) := by
  rw [afterBool_insertMove]
  exact WFcore_insert s id v hWF

theorem WFcore_shrink [Inhabited α] (s : SparseSet w α)
    (hWF : WFcore s) : WFcore s.ShrinkToFit := by
  obtain ⟨hlen, hcle, hcinv, hLinv, hT⟩ := hWF
  obtain ⟨sp, eid, el, c⟩ := s
  simp only [SparseSet.ShrinkToFit, WFcore, SparseSet.NumSupportedElements] at *
  rw [listResize_of_le _ _ _ (by omega), listResize_of_le _ _ _ (by omega)]
  refine ⟨by simp [hlen], by simp; omega, hcinv, hLinv, ?_⟩
  apply TwoInvs_congr sp eid _ el _ c
  · intro p hp
    exact listGetD_take _ _ _ _ hp (by omega)
  · exact hT

theorem WFcore_reserve (s : SparseSet w α) (n : Nat) (hn : n < 2 ^ w)
    (hWF : WFcore s) : WFcore (s.Reserve n) := by
  obtain ⟨hlen, hcle, hcinv, hLinv, hT⟩ := hWF
  have hnI : n ≤ InvalidIndex w := by unfold InvalidIndex; omega
  obtain ⟨sp, eid, el, c⟩ := s
  simp only [SparseSet.Reserve, SparseSet.NumSupportedElements] at *
  by_cases hgt : n > sp.length
  · rw [if_pos hgt]
    simp only [WFcore, TwoInvs, sparseAt, denseIdAt, SparseSet.NumSupportedElements,
      listResize, if_neg (by omega : ¬ n ≤ sp.length)] at *
    obtain ⟨hi1, hi2⟩ := hT
    refine ⟨hlen, hcle, hcinv, by simp; omega, ?_, ?_⟩
    · intro id hid hval
      by_cases hidL : id < sp.length
      · rw [listGetD_append_left _ _ _ _ hidL] at hval ⊢
        exact hi1 id hidL hval
      · rw [List.getD_append_right _ _ _ _ (by omega),
          listGetD_replicate _ _ _ _ (by simp at hid; omega)] at hval
        omega
    · intro p hp
      obtain ⟨ha, hb⟩ := hi2 p hp
      rw [listGetD_append_left _ _ _ _ ha]
      refine ⟨?_, hb⟩
      rw [List.length_append, List.length_replicate]
      omega
  · rw [if_neg hgt]
    exact ⟨hlen, hcle, hcinv, hLinv, hT⟩

theorem WFcore_mkEmpty : WFcore (SparseSet.mkEmpty w α) := by
  unfold WFcore TwoInvs SparseSet.mkEmpty SparseSet.NumSupportedElements sparseAt denseIdAt
  refine ⟨rfl, by simp, by simp, by simp, ?_, ?_⟩
  · intro id hid hval
    simp at hid
  · intro p hp
    simp at hp

theorem WFcore_mkSized (m : Nat) (hm : m < 2 ^ w) :
    WFcore (SparseSet.mkSized w α m) := by
  unfold WFcore TwoInvs SparseSet.mkSized SparseSet.NumSupportedElements sparseAt denseIdAt
  refine ⟨rfl, by simp, by simp, ?_, ?_, ?_⟩
  · simp only [List.length_replicate]
    unfold InvalidIndex
    omega
  · intro id hid hval
    simp only [List.length_replicate] at hid
    exact absurd (listGetD_replicate _ _ _ _ hid) hval
  · intro p hp
    simp at hp

end Hpp

/-! ## Correspondence between the two variants -/

/-- Field-for-field translation between the two classes' states (they
declare the same four members). -/
def toHdr (s : Hpp.SparseSet w α) : Hdr.SparseSet w α :=
  ⟨s.m_ID_To_Element, s.m_Element_To_ID, s.m_Elements, s.m_CurrentLast⟩

/-- Map a state-carrying `void` result through a state translation. -/
def emapV (f : σ → τ) : Except σ σ → Except τ τ
  | Except.ok s => Except.ok (f s)
  | Except.error s => Except.error (f s)

/-- Forget a `bool` return, keeping the state on both outcomes. -/
def voidOf (r : Except σ (Bool × σ)) : Except σ σ :=
  match r with
  | Except.ok p => Except.ok p.2
  | Except.error s => Except.error s

theorem afterVoid_emapV (f : σ → τ) (r : Except σ σ) :
    afterVoid (emapV f r) = f (afterVoid r) := by
  cases r <;> rfl

theorem afterVoid_voidOf (r : Except σ (Bool × σ)) :
    afterVoid (voidOf r) = afterBool r := by
  cases r <;> rfl

theorem toHdr_mkEmpty : toHdr (Hpp.SparseSet.mkEmpty w α) = Hdr.SparseSet.mkEmpty w α := rfl

theorem toHdr_mkSized (m : Nat) :
    toHdr (Hpp.SparseSet.mkSized w α m) = Hdr.SparseSet.mkSized w α m := rfl

theorem exists_toHdr (s : Hpp.SparseSet w α) (id : Nat) :
    (toHdr s).Exists id = s.Exists id := rfl

theorem get_toHdr (s : Hpp.SparseSet w α) (id : Nat) :
    (toHdr s).Get id = s.Get id := rfl

theorem getIfExists_toHdr (s : Hpp.SparseSet w α) (id : Nat) :
    (toHdr s).GetIfExists id = s.GetIfExists id := rfl

theorem getData_toHdr (s : Hpp.SparseSet w α) :
    (toHdr s).GetData = s.GetData := rfl

theorem numSupported_toHdr (s : Hpp.SparseSet w α) :
    (toHdr s).NumSupportedElements = s.NumSupportedElements := rfl

theorem add_eq_insert (s : Hpp.SparseSet w α) (id : Nat) (v : α) :
    (toHdr s).Add id v = emapV toHdr (s.Insert id v) := by
  obtain ⟨sp, eid, el, c⟩ := s
  simp only [Hdr.SparseSet.Add, Hpp.SparseSet.Insert, Hdr.SparseSet.addCore,
    Hpp.SparseSet.insertCore, Hdr.SparseSet.addFinish, Hpp.SparseSet.insertFinish,
    Hdr.SparseSet.Exists, Hpp.SparseSet.Exists, toHdr, Hdr.m_EmptyIndex, InvalidIndex]
  split_ifs <;> rfl

theorem addMove_eq_insertMove (s : Hpp.SparseSet w α) (id : Nat) (v : α) :
    (toHdr s).AddMove id v = emapV toHdr (voidOf (s.InsertMove id v)) := by
  obtain ⟨sp, eid, el, c⟩ := s
  simp only [Hdr.SparseSet.AddMove, Hpp.SparseSet.InsertMove, Hdr.SparseSet.addCore,
    Hpp.SparseSet.insertCore, Hdr.SparseSet.addFinish, Hpp.SparseSet.insertFinish,
    Hdr.SparseSet.Exists, Hpp.SparseSet.Exists, toHdr, Hdr.m_EmptyIndex, InvalidIndex,
    Except.map]
  split_ifs <;> rfl

set_option maxHeartbeats 2000000 in
theorem remove_eq_erase (s : Hpp.SparseSet w α) (id : Nat) :
    (toHdr s).Remove id = emapV toHdr (voidOf (s.Erase id)) := by
  obtain ⟨sp, eid, el, c⟩ := s
  simp only [Hdr.SparseSet.Remove, Hpp.SparseSet.Erase, Hdr.SparseSet.removeFinish,
    Hpp.SparseSet.eraseFinish, Hdr.SparseSet.Exists, Hpp.SparseSet.Exists, toHdr,
    Hdr.m_EmptyIndex, InvalidIndex]
  split_ifs <;> rfl

theorem shrink_toHdr [Inhabited α] (s : Hpp.SparseSet w α) :
    (toHdr s).ShrinkToFit = toHdr s.ShrinkToFit := rfl

theorem extendTo_eq_reserve (s : Hpp.SparseSet w α) (n : Nat) :
    (toHdr s).ExtendTo n = toHdr (s.Reserve n) := by
  obtain ⟨sp, eid, el, c⟩ := s
  simp only [Hdr.SparseSet.ExtendTo, Hpp.SparseSet.Reserve, toHdr, Hdr.m_EmptyIndex,
    InvalidIndex]
  split_ifs <;> rfl

/-! ## Operation sequences -/

/-- One public mutating call, used to quantify over arbitrary operation
sequences (queries are pure and need not appear). -/
inductive Op (α : Type) where
  | ins (id : Nat) (v : α)
  | insMove (id : Nat) (v : α)
  | er (id : Nat)
  | shrink
  | reserve (n : Nat)
deriving Repr

namespace Hpp

/-- Apply one call to a .hpp-variant object (the state left behind,
whether the call returns or throws). -/
def SparseSet.applyOp [Inhabited α] (s : SparseSet w α) : Op α → SparseSet w α
  | Op.ins id v => afterVoid (s.Insert id v)
  | Op.insMove id v => afterBool (s.InsertMove id v)
  | Op.er id => afterBool (s.Erase id)
  | Op.shrink => s.ShrinkToFit
  | Op.reserve n => s.Reserve n

/-- Run a sequence of calls. -/
def SparseSet.run [Inhabited α] (s : SparseSet w α) : List (Op α) → SparseSet w α
  | [] => s
  | op :: ops => (s.applyOp op).run ops

end Hpp

namespace Hdr

/-- Apply one corresponding call to a .h-variant object. -/
def SparseSet.applyOp [Inhabited α] (s : SparseSet w α) : Op α → SparseSet w α
  | Op.ins id v => afterVoid (s.Add id v)
  | Op.insMove id v => afterVoid (s.AddMove id v)
  | Op.er id => afterVoid (s.Remove id)
  | Op.shrink => s.ShrinkToFit
  | Op.reserve n => s.ExtendTo n

/-- Run a sequence of corresponding calls. -/
def SparseSet.run [Inhabited α] (s : SparseSet w α) : List (Op α) → SparseSet w α
  | [] => s
  | op :: ops => (s.applyOp op).run ops

end Hdr

theorem applyOp_toHdr [Inhabited α] (s : Hpp.SparseSet w α) (op : Op α) :
    (toHdr s).applyOp op = toHdr (s.applyOp op) := by
  cases op with
  | ins id v =>
      simp only [Hpp.SparseSet.applyOp, Hdr.SparseSet.applyOp, add_eq_insert,
        afterVoid_emapV]
  | insMove id v =>
      simp only [Hpp.SparseSet.applyOp, Hdr.SparseSet.applyOp, addMove_eq_insertMove,
        afterVoid_emapV, afterVoid_voidOf]
  | er id =>
      simp only [Hpp.SparseSet.applyOp, Hdr.SparseSet.applyOp, remove_eq_erase,
        afterVoid_emapV, afterVoid_voidOf]
  | shrink => exact shrink_toHdr s
  | reserve n => exact extendTo_eq_reserve s n

theorem run_toHdr [Inhabited α] (s : Hpp.SparseSet w α) (ops : List (Op α)) :
    (toHdr s).run ops = toHdr (s.run ops) := by
  induction ops generalizing s with
  | nil => rfl
  | cons op ops ih =>
      rw [Hpp.SparseSet.run, Hdr.SparseSet.run, applyOp_toHdr, ih]

namespace Hpp

/-! ## The sparse table's length under each operation -/

theorem numSupported_insertFinish (s : SparseSet w α) (id : Nat) :
    (afterVoid (s.insertFinish id)).NumSupportedElements = s.NumSupportedElements := by
  unfold SparseSet.insertFinish
  split <;> simp [afterVoid, SparseSet.NumSupportedElements]

theorem numSupported_insert (s : SparseSet w α) (id : Nat) (v : α) :
    (afterVoid (s.Insert id v)).NumSupportedElements = s.NumSupportedElements := by
  unfold SparseSet.Insert SparseSet.insertCore SparseSet.insertFinish
  dsimp only
  repeat' split
  all_goals simp [afterVoid, SparseSet.NumSupportedElements]

theorem numSupported_insertMove (s : SparseSet w α) (id : Nat) (v : α) :
    (afterBool (s.InsertMove id v)).NumSupportedElements = s.NumSupportedElements := by
  rw [afterBool_insertMove]
  exact numSupported_insert s id v

theorem numSupported_erase (s : SparseSet w α) (id : Nat) :
    (afterBool (s.Erase id)).NumSupportedElements = s.NumSupportedElements := by
  unfold SparseSet.Erase SparseSet.eraseFinish
  dsimp only
  repeat' split
  all_goals simp [afterBool, SparseSet.NumSupportedElements]

theorem numSupported_shrink [Inhabited α] (s : SparseSet w α) :
    s.ShrinkToFit.NumSupportedElements = s.NumSupportedElements := rfl

/-- `Reserve` sets the sparse-table length to the maximum of the old
length and the requested support. -/
theorem numSupported_reserve (s : SparseSet w α) (n : Nat) :
    (s.Reserve n).NumSupportedElements =
      max s.NumSupportedElements n := by
  unfold SparseSet.Reserve listResize SparseSet.NumSupportedElements
  split
  · rw [if_neg (by omega)]
    simp
    omega
  · simp
    omega

theorem numSupported_applyOp [Inhabited α] (s : SparseSet w α) (op : Op α) :
    s.NumSupportedElements ≤ (s.applyOp op).NumSupportedElements := by
  cases op with
  | ins id v => rw [SparseSet.applyOp, numSupported_insert]
  | insMove id v => rw [SparseSet.applyOp, numSupported_insertMove]
  | er id => rw [SparseSet.applyOp, numSupported_erase]
  | shrink => rw [SparseSet.applyOp, numSupported_shrink]
  | reserve n =>
      rw [SparseSet.applyOp, numSupported_reserve]
      omega

/-- `NumSupportedElements` never decreases across any sequence of public
operations. -/
theorem numSupported_run [Inhabited α] (s : SparseSet w α) (ops : List (Op α)) :
    s.NumSupportedElements ≤ (s.run ops).NumSupportedElements := by
  induction ops generalizing s with
  | nil => exact Nat.le_refl _
  | cons op ops ih =>
      rw [SparseSet.run]
      exact Nat.le_trans (numSupported_applyOp s op) (ih _)

/-! ## `Reserve` slot contents -/

theorem reserve_noop (s : SparseSet w α) (n : Nat)
    (h : n ≤ s.NumSupportedElements) : s.Reserve n = s := by
  unfold SparseSet.Reserve
  rw [if_neg (by unfold SparseSet.NumSupportedElements at h; omega)]

theorem reserve_old_slots (s : SparseSet w α) (n : Nat) (j : Nat)
    (hj : j < s.NumSupportedElements) :
    sparseAt (s.Reserve n) j = sparseAt s j := by
  unfold SparseSet.Reserve listResize SparseSet.NumSupportedElements at *
  split
  · rw [if_neg (by omega)]
    exact listGetD_append_left _ _ _ _ hj
  · rfl

theorem reserve_new_slots (s : SparseSet w α) (n : Nat) (j : Nat)
    (hj : s.NumSupportedElements ≤ j) :
    sparseAt (s.Reserve n) j = InvalidIndex w := by
  unfold SparseSet.Reserve listResize SparseSet.NumSupportedElements sparseAt at *
  split
  · rw [if_neg (by omega)]
    by_cases hjn : j < n
    · rw [List.getD_append_right _ _ _ _ (by omega)]
      exact listGetD_replicate _ _ _ _ (by omega)
    · rw [List.getD_eq_default]
      simp
      omega
  · rw [List.getD_eq_default _ _ (by omega)]

end Hpp

namespace Hpp

/-! ## Query-level facts -/

/-- In a well-formed set, `Get` on an absent identifier always hits an
out-of-range `at` (either the sparse access itself or the dense access at
the sentinel index) and therefore fails. -/
theorem get_none_of_absent (s : SparseSet w α) (id : Nat)
    (hWF : WFfull s) (hne : s.Exists id = false) : s.Get id = none := by
  obtain ⟨⟨hlen, hcle, hcinv, hLinv, hT⟩, hful⟩ := hWF
  unfold SparseSet.Get
  by_cases hid : id < s.m_ID_To_Element.length
  · rw [dif_pos hid]
    have hsid : sparseAt s id = InvalidIndex w := (exists_false_iff s id).mp hne
    have hgd : s.m_ID_To_Element.get ⟨id, hid⟩ = InvalidIndex w := by
      rw [← listGetD_eq_get _ _ hid (InvalidIndex w)]
      exact hsid
    rw [dif_neg]
    rw [hgd]
    unfold InvalidIndex at *
    omega
  · rw [dif_neg hid]

/-- In a well-formed set, `Get` on an existing identifier returns the
dense element at that identifier's sparse entry. -/
theorem get_some_of_exists (s : SparseSet w α) (id : Nat)
    (hWF : WFcore s) (hex : s.Exists id = true) :
    sparseAt s id < s.m_Elements.length ∧
    s.Get id = s.m_Elements[sparseAt s id]? ∧
    (s.Get id).isSome = true := by
  obtain ⟨hlen, hcle, hcinv, hLinv, hi1, hi2⟩ := hWF
  have hid : id < s.m_ID_To_Element.length := lt_length_of_exists s id hex
  have hval : sparseAt s id ≠ InvalidIndex w := (exists_true_iff s id).mp hex
  obtain ⟨hpos, _⟩ := hi1 id hid hval
  have hlt : sparseAt s id < s.m_Elements.length := by omega
  refine ⟨hlt, get_eq_of_lt s id hid hlt, ?_⟩
  rw [get_eq_of_lt s id hid hlt, List.getElem?_eq_getElem hlt]
  rfl

/-- In a well-formed set, `GetIfExists` never throws: it returns exactly
what `Get` would, wrapped as a present/absent optional. -/
theorem getIfExists_eq_get (s : SparseSet w α) (id : Nat)
    (hWF : WFfull s) : s.GetIfExists id = Except.ok (s.Get id) := by
  unfold SparseSet.GetIfExists SparseSet.Get
  by_cases hex : s.Exists id = true
  · obtain ⟨hlt, hget, _⟩ := get_some_of_exists s id hWF.1 hex
    have hid : id < s.m_ID_To_Element.length := lt_length_of_exists s id hex
    have he : s.m_ID_To_Element.get ⟨id, hid⟩ = sparseAt s id :=
      (listGetD_eq_get _ _ hid (InvalidIndex w)).symm
    rw [if_pos hex, dif_pos hid, dif_pos (by rw [he]; exact hlt),
      dif_pos hid, dif_pos (by rw [he]; exact hlt)]
  · have hne : s.Exists id = false := by
      revert hex; cases s.Exists id <;> simp
    rw [if_neg (by simp [hne])]
    have hnone := get_none_of_absent s id hWF hne
    unfold SparseSet.Get at hnone
    rw [hnone]

/-- `ShrinkToFit` does not touch the sparse table or the counter. -/
theorem shrink_frame [Inhabited α] (s : SparseSet w α) :
    s.ShrinkToFit.m_ID_To_Element = s.m_ID_To_Element ∧
    s.ShrinkToFit.m_CurrentLast = s.m_CurrentLast := ⟨rfl, rfl⟩

theorem exists_shrink [Inhabited α] (s : SparseSet w α) (id : Nat) :
    s.ShrinkToFit.Exists id = s.Exists id := rfl

/-- Truncating a list beyond an in-range position does not change the
optional lookup at that position. -/
theorem getTake_eq (el : List α) (c P : Nat) (hP : P < c) (hc : c ≤ el.length) :
    (el.take c)[P]? = el[P]? := by
  rw [List.getElem?_eq_getElem (by rw [List.length_take]; omega :
        P < (el.take c).length),
      List.getElem?_eq_getElem (by omega : P < el.length)]
  simp [List.getElem_take]

/-- `ShrinkToFit` preserves every `Get` result in a well-formed set: live
entries are below the counter and survive the truncation, and absent
identifiers keep failing. -/
theorem get_shrink [Inhabited α] (s : SparseSet w α) (id : Nat)
    (hWF : WFfull s) : s.ShrinkToFit.Get id = s.Get id := by
  by_cases hex : s.Exists id = true
  · obtain ⟨hlt, hget, _⟩ := get_some_of_exists s id hWF.1 hex
    obtain ⟨⟨hlen, hcle, hcinv, hLinv, hi1, hi2⟩, hful⟩ := hWF
    have hid : id < s.m_ID_To_Element.length := lt_length_of_exists s id hex
    have hval : sparseAt s id ≠ InvalidIndex w := (exists_true_iff s id).mp hex
    obtain ⟨hpos, _⟩ := hi1 id hid hval
    have hWFs : WFcore s.ShrinkToFit :=
      WFcore_shrink s ⟨hlen, hcle, hcinv, hLinv, hi1, hi2⟩
    have hexs : s.ShrinkToFit.Exists id = true := by
      rw [exists_shrink]; exact hex
    obtain ⟨hlt2, hget2, _⟩ := get_some_of_exists s.ShrinkToFit id hWFs hexs
    have hel : s.ShrinkToFit.m_Elements = s.m_Elements.take s.m_CurrentLast := by
      show listResize s.m_Elements s.m_CurrentLast default = _
      exact listResize_of_le _ _ _ (by omega)
    have hsp : sparseAt s.ShrinkToFit id = sparseAt s id := rfl
    rw [hget2, hget, hel, hsp]
    exact getTake_eq _ _ _ (by omega) (by omega)
  · have hne : s.Exists id = false := by
      revert hex; cases s.Exists id <;> simp
    have hnes : s.ShrinkToFit.Exists id = false := by
      rw [exists_shrink]; exact hne
    obtain ⟨⟨hlen, hcle, hcinv, hLinv, hi1, hi2⟩, hful⟩ := hWF
    have hWFs : WFfull s.ShrinkToFit := by
      refine ⟨WFcore_shrink s ⟨hlen, hcle, hcinv, hLinv, hi1, hi2⟩, ?_⟩
      have hel : s.ShrinkToFit.m_Elements = s.m_Elements.take s.m_CurrentLast := by
        show listResize s.m_Elements s.m_CurrentLast default = _
        exact listResize_of_le _ _ _ (by omega)
      rw [hel, List.length_take]
      omega
    rw [get_none_of_absent s.ShrinkToFit id hWFs hnes,
      get_none_of_absent s id ⟨⟨hlen, hcle, hcinv, hLinv, hi1, hi2⟩, hful⟩ hne]

/-- A successful fresh insert makes the identifier present with the
inserted value stored at dense position `m_CurrentLast`. -/
theorem insert_get (s : SparseSet w α) (id : Nat) (v : α)
    (hWF : WFcore s) (hne : s.Exists id = false)
    (hid : id < s.m_ID_To_Element.length) :
    (afterVoid (s.Insert id v)).Exists id = true ∧
    (afterVoid (s.Insert id v)).Get id = some v ∧
    sparseAt (afterVoid (s.Insert id v)) id = s.m_CurrentLast := by
  have hcL : s.m_CurrentLast < s.NumSupportedElements :=
    count_lt_of_absent s hWF id hid hne
  obtain ⟨hlen, hcle, hcinv, hLinv, hT⟩ := hWF
  have hcI : s.m_CurrentLast < InvalidIndex w := by
    unfold SparseSet.NumSupportedElements at hcL hLinv; omega
  have hwrap : (s.m_CurrentLast + 1) % 2 ^ w = s.m_CurrentLast + 1 := by
    apply Nat.mod_eq_of_lt
    unfold InvalidIndex at hcI
    have hpw : 0 < 2 ^ w := Nat.pos_pow_of_pos w (by omega)
    omega
  by_cases hlt : s.m_CurrentLast < s.m_Elements.length
  · rw [insert_ok_reuse s id v hne hid hlen hlt]
    obtain ⟨sp, eid, el, c⟩ := s
    simp only [afterVoid, sparseAt, SparseSet.NumSupportedElements] at *
    have hsid : (sp.set id c).getD id (InvalidIndex w) = c :=
      listGetD_set_self _ _ _ _ hid
    refine ⟨?_, ?_, hsid⟩
    · rw [exists_true_iff]
      simp only [sparseAt]
      rw [hsid]
      omega
    · rw [get_eq_of_lt _ id (by simpa using hid) (by simp only [sparseAt]; rw [hsid]; simpa using hlt)]
      simp only [sparseAt]
      rw [hsid]
      exact List.getElem?_set_eq_of_lt _ (by simpa using hlt)
  · rw [insert_ok_push s id v hne hid (by omega)]
    obtain ⟨sp, eid, el, c⟩ := s
    simp only [afterVoid, sparseAt, SparseSet.NumSupportedElements] at *
    have hceq : c = el.length := by omega
    have hsid : (sp.set id c).getD id (InvalidIndex w) = c :=
      listGetD_set_self _ _ _ _ hid
    refine ⟨?_, ?_, hsid⟩
    · rw [exists_true_iff]
      simp only [sparseAt]
      rw [hsid]
      omega
    · rw [get_eq_of_lt _ id (by simpa using hid) (by simp only [sparseAt]; rw [hsid]; simp; omega)]
      simp only [sparseAt]
      rw [hsid, hceq]
      rw [List.getElem?_append_right (by omega)]
      simp

end Hpp

namespace Hpp

/-- The spec's two consistency invariants, exactly as stated: every
identifier whose sparse entry is not `Invalid` points at a live dense
slot that carries it back and holds its current value (`Get` reads that
slot), and every live dense slot round-trips through the sparse table. -/
def ConsistencyInvs (s : SparseSet w α) : Prop :=
  (∀ id : Nat, sparseAt s id ≠ InvalidIndex w →
      sparseAt s id < s.m_CurrentLast ∧
      denseIdAt s (sparseAt s id) = id ∧
      s.Get id = s.m_Elements[sparseAt s id]?) ∧
  (∀ p : Nat, p < s.m_CurrentLast →
      sparseAt s (denseIdAt s p) = p)

theorem consistency_of_WFcore (s : SparseSet w α) (hWF : WFcore s) :
    ConsistencyInvs s := by
  obtain ⟨hlen, hcle, hcinv, hLinv, hi1, hi2⟩ := hWF
  constructor
  · intro id hval
    have hid : id < s.m_ID_To_Element.length := by
      by_contra hc
      exact hval (by unfold sparseAt; rw [List.getD_eq_default _ _ (by omega)])
    obtain ⟨ha, hb⟩ := hi1 id hid hval
    exact ⟨ha, hb, get_eq_of_lt s id hid (by omega)⟩
  · intro p hp
    exact (hi2 p hp).2

/-- Under `WFcore`, erasing an existing identifier succeeds and reports
`true`. -/
theorem erase_success (s : SparseSet w α) (id : Nat)
    (hWF : WFcore s) (hex : s.Exists id = true) :
    s.Erase id = Except.ok (true, afterBool (s.Erase id)) := by
  by_cases hlast : sparseAt s id = s.m_CurrentLast - 1
  · rw [erase_ok_last s id hWF hex hlast]
    rfl
  · obtain ⟨hid, hrc, hden, hc1, hwrap⟩ := erase_setup s id hWF hex
    have hcel : s.m_CurrentLast - 1 < s.m_Elements.length := by
      obtain ⟨hlen, hcle, hcinv, hLinv, hT⟩ := hWF
      omega
    rw [erase_ok_swap s id hWF hex hlast hcel]
    rfl

end Hpp

/-- Inverse field-for-field translation. -/
def toHpp (s : Hdr.SparseSet w α) : Hpp.SparseSet w α :=
  ⟨s.m_ID_To_Element, s.m_Element_To_ID, s.m_Elements, s.m_CurrentLast⟩

theorem toHdr_toHpp (s : Hdr.SparseSet w α) : toHdr (toHpp s) = s := rfl

theorem toHpp_toHdr (s : Hpp.SparseSet w α) : toHpp (toHdr s) = s := rfl

namespace Hdr

/-- `Remove` on an absent identifier returns without doing anything. -/
theorem remove_absent (t : SparseSet w α) (ID : Nat)
    (hne : t.Exists ID = false) : t.Remove ID = Except.ok t := by
  unfold SparseSet.Remove
  rw [if_neg (by simp [hne])]

end Hdr

namespace Hpp

instance (s : SparseSet w α) : Decidable (TwoInvs s) := by
  unfold TwoInvs
  infer_instance

instance (s : SparseSet w α) : Decidable (WFcore s) := by
  unfold WFcore
  infer_instance

instance (s : SparseSet w α) : Decidable (WFfull s) := by
  unfold WFfull
  infer_instance

end Hpp

/-- The spec's swap-remove scenario: identifiers 1, 2, 3 inserted in that
order (dense positions 0, 1, 2) with values 10, 20, 30, over `uint4`
identifiers and a sparse table sized for 8 identifiers. -/
def s123 : Hpp.SparseSet 4 Nat :=
  afterVoid ((afterVoid ((afterVoid
    ((Hpp.SparseSet.mkSized 4 Nat 8).Insert 1 10)).Insert 2 20)).Insert 3 30)

/-- The scenario state after `Erase(1)`. -/
def s123e : Hpp.SparseSet 4 Nat := afterBool (s123.Erase 1)

/-- The scenario state written out: identifiers 1, 2, 3 at dense
positions 0, 1, 2 (the sentinel at width 4 is 15). -/
theorem s123_eval :
    s123 = ⟨[15, 0, 1, 2, 15, 15, 15, 15], [1, 2, 3], [10, 20, 30], 3⟩ := by decide

/-- After `Erase(1)`: identifier 3 moved to dense position 0, the slots
beyond the live prefix are stale, the count dropped to 2. -/
theorem s123e_eval :
    s123e = ⟨[15, 15, 1, 0, 15, 15, 15, 15], [3, 2, 3], [30, 20, 30], 2⟩ := by decide

/-! ## Claims -/

/-- C1: for every well-formed set and existing identifier `id` at dense
position `removedPos` with `lastPos = count - 1`, `Erase(id)` succeeds and:
when `removedPos ≠ lastPos` it moves the value at `lastPos` into
`removedPos`, redirects the moved identifier's sparse entry to
`removedPos` and writes the moved identifier into the dense identifier
array at `removedPos`; when `removedPos = lastPos` it performs no swap
(both dense arrays are untouched); in both cases it sets the erased
identifier's sparse entry to `Invalid`, leaves every other identifier's
sparse entry alone, and decrements `count`.  In particular, for
identifiers {1,2,3} inserted in that order, `Erase(1)` leaves
`Exists(1) = false`, `Exists(2) = true`, `Exists(3) = true`, `count = 2`,
and identifier 3's value 30 at dense position 0. -/
theorem c1_erase_swap_remove :
    (∀ (w : Nat) (α : Type) (s : Hpp.SparseSet w α) (id : Nat),
      Hpp.WFcore s → s.Exists id = true →
      ∃ t, s.Erase id = Except.ok (true, t) ∧
        t.m_CurrentLast = s.m_CurrentLast - 1 ∧
        Hpp.sparseAt t id = InvalidIndex w ∧
        (Hpp.sparseAt s id ≠ s.m_CurrentLast - 1 →
          t.m_Elements[Hpp.sparseAt s id]? = s.m_Elements[s.m_CurrentLast - 1]? ∧
          Hpp.sparseAt t (Hpp.denseIdAt s (s.m_CurrentLast - 1)) = Hpp.sparseAt s id ∧
          Hpp.denseIdAt t (Hpp.sparseAt s id) = Hpp.denseIdAt s (s.m_CurrentLast - 1)) ∧
        (Hpp.sparseAt s id = s.m_CurrentLast - 1 →
          t.m_Elements = s.m_Elements ∧ t.m_Element_To_ID = s.m_Element_To_ID) ∧
        (∀ j, j ≠ id → j ≠ Hpp.denseIdAt s (s.m_CurrentLast - 1) →
          Hpp.sparseAt t j = Hpp.sparseAt s j)) ∧
    (s123e.Exists 1 = false ∧ s123e.Exists 2 = true ∧ s123e.Exists 3 = true ∧
      s123e.m_CurrentLast = 2 ∧ Hpp.sparseAt s123e 3 = 0 ∧
      s123e.m_Elements[0]? = some 30 ∧ s123e.Get 3 = some 30) := by
  constructor
  · intro w α s id hWF hex
    obtain ⟨hid, hrc, hden, hc, hwrap⟩ := Hpp.erase_setup s id hWF hex
    obtain ⟨hlen, hcle, hcinv, hLinv, hi1, hi2⟩ := hWF
    by_cases hlast : Hpp.sparseAt s id = s.m_CurrentLast - 1
    · refine ⟨_, Hpp.erase_ok_last s id ⟨hlen, hcle, hcinv, hLinv, hi1, hi2⟩ hex hlast,
        rfl, ?_, ?_, ?_, ?_⟩
      · exact listGetD_set_self _ _ _ _ hid
      · intro hc2
        exact absurd hlast hc2
      · intro _
        exact ⟨rfl, rfl⟩
      · intro j hj _
        exact listGetD_set_ne _ _ _ _ _ (fun hcn => hj hcn.symm)
    · have hc1 : s.m_CurrentLast - 1 < s.m_Elements.length := by omega
      obtain ⟨hmL, hmval⟩ := hi2 (s.m_CurrentLast - 1) (by omega)
      have hmne : Hpp.denseIdAt s (s.m_CurrentLast - 1) ≠ id := by
        intro hcn
        rw [hcn] at hmval
        omega
      refine ⟨_, Hpp.erase_ok_swap s id ⟨hlen, hcle, hcinv, hLinv, hi1, hi2⟩ hex hlast hc1,
        rfl, ?_, ?_, ?_, ?_⟩
      · exact listGetD_set_self _ _ _ _ (by simpa using hid)
      · intro _
        refine ⟨?_, ?_, ?_⟩
        · rw [List.getElem?_set_eq_of_lt _ (by simpa using hrc.trans_le hcle),
            List.getElem?_eq_getElem hc1]
          simp [List.get_eq_getElem]
        · show Hpp.sparseAt _ (Hpp.denseIdAt s (s.m_CurrentLast - 1)) = _
          unfold Hpp.sparseAt Hpp.denseIdAt at *
          dsimp only
          rw [listGetD_set_ne _ _ _ _ _ (fun hcn => hmne hcn.symm),
            listGetD_set_self _ _ _ _ hmL]
        · show Hpp.denseIdAt _ (Hpp.sparseAt s id) = _
          unfold Hpp.sparseAt Hpp.denseIdAt at *
          exact listGetD_set_self _ _ _ _ (by omega)
      · intro hc2
        exact absurd hc2 hlast
      · intro j hj hjm
        show Hpp.sparseAt _ j = _
        unfold Hpp.sparseAt Hpp.denseIdAt at *
        dsimp only
        rw [listGetD_set_ne _ _ _ _ _ (fun hcn => hj hcn.symm),
          listGetD_set_ne _ _ _ _ _ (fun hcn => hjm hcn.symm)]
  · exact ⟨by decide, by decide, by decide, by decide, by decide, by decide, by decide⟩

/-- Witness for C1: the general clause applied to the concrete {1,2,3}
scenario erasing identifier 1. -/
theorem c1_erase_swap_remove_witness :
    ∃ t, s123.Erase 1 = Except.ok (true, t) ∧
      t.m_CurrentLast = s123.m_CurrentLast - 1 ∧
      Hpp.sparseAt t 1 = InvalidIndex 4 ∧
      (Hpp.sparseAt s123 1 ≠ s123.m_CurrentLast - 1 →
        t.m_Elements[Hpp.sparseAt s123 1]? = s123.m_Elements[s123.m_CurrentLast - 1]? ∧
        Hpp.sparseAt t (Hpp.denseIdAt s123 (s123.m_CurrentLast - 1)) = Hpp.sparseAt s123 1 ∧
        Hpp.denseIdAt t (Hpp.sparseAt s123 1) = Hpp.denseIdAt s123 (s123.m_CurrentLast - 1)) ∧
      (Hpp.sparseAt s123 1 = s123.m_CurrentLast - 1 →
        t.m_Elements = s123.m_Elements ∧ t.m_Element_To_ID = s123.m_Element_To_ID) ∧
      (∀ j, j ≠ 1 → j ≠ Hpp.denseIdAt s123 (s123.m_CurrentLast - 1) →
        Hpp.sparseAt t j = Hpp.sparseAt s123 j) :=
  c1_erase_swap_remove.1 4 Nat s123 1 (by decide) (by decide)

/-- A call whose `IDType`-typed size argument is representable at width
`w` (identifier arguments need no restriction: out-of-range identifiers
are handled by the operations themselves). -/
def Op.inRange (w : Nat) : Op α → Bool
  | Op.reserve n => n < 2 ^ w
  | _ => true

namespace Hpp

theorem WFcore_applyOp [Inhabited α] (s : SparseSet w α) (op : Op α)
    (hWF : WFcore s) (hop : Op.inRange w op = true) :
    WFcore (s.applyOp op) := by
  cases op with
  | ins id v => exact WFcore_insert s id v hWF
  | insMove id v => exact WFcore_insertMove s id v hWF
  | er id => exact WFcore_erase s id hWF
  | shrink => exact WFcore_shrink s hWF
  | reserve n =>
      simp only [Op.inRange, decide_eq_true_eq] at hop
      exact WFcore_reserve s n hop hWF

theorem WFcore_run [Inhabited α] (s : SparseSet w α) (ops : List (Op α))
    (hWF : WFcore s) (hops : ∀ op ∈ ops, Op.inRange w op = true) :
    WFcore (s.run ops) := by
  induction ops generalizing s with
  | nil => exact hWF
  | cons op ops ih =>
      rw [SparseSet.run]
      exact ih _ (WFcore_applyOp s op hWF (hops op (by simp)))
        (fun o ho => hops o (by simp [ho]))

end Hpp

/-- C2: starting from any well-formed state, the two consistency
invariants of the data model hold after construction (default and
sized), `Insert` (both overloads), `Erase`, `ShrinkToFit` and `Reserve`
— and after any whole sequence of such calls.  `Get`, `GetIfExists`,
`Exists` and `NumSupportedElements` are `const` and modelled as pure
functions of the state, so they trivially preserve the invariants. -/
theorem c2_invariants_after_every_operation
    (w : Nat) (α : Type) [Inhabited α] (s : Hpp.SparseSet w α)
    (id m n : Nat) (v : α) (ops : List (Op α))
    (hWF : Hpp.WFcore s) (hm : m < 2 ^ w) (hn : n < 2 ^ w)
    (hops : ∀ op ∈ ops, Op.inRange w op = true) :
    Hpp.ConsistencyInvs (Hpp.SparseSet.mkEmpty w α) ∧
    Hpp.ConsistencyInvs (Hpp.SparseSet.mkSized w α m) ∧
    Hpp.ConsistencyInvs (afterVoid (s.Insert id v)) ∧
    Hpp.ConsistencyInvs (afterBool (s.InsertMove id v)) ∧
    Hpp.ConsistencyInvs (afterBool (s.Erase id)) ∧
    Hpp.ConsistencyInvs s.ShrinkToFit ∧
    Hpp.ConsistencyInvs (s.Reserve n) ∧
    Hpp.ConsistencyInvs (s.run ops) :=
  ⟨Hpp.consistency_of_WFcore _ Hpp.WFcore_mkEmpty,
   Hpp.consistency_of_WFcore _ (Hpp.WFcore_mkSized m hm),
   Hpp.consistency_of_WFcore _ (Hpp.WFcore_insert s id v hWF),
   Hpp.consistency_of_WFcore _ (Hpp.WFcore_insertMove s id v hWF),
   Hpp.consistency_of_WFcore _ (Hpp.WFcore_erase s id hWF),
   Hpp.consistency_of_WFcore _ (Hpp.WFcore_shrink s hWF),
   Hpp.consistency_of_WFcore _ (Hpp.WFcore_reserve s n hn hWF),
   Hpp.consistency_of_WFcore _ (Hpp.WFcore_run s ops hWF hops)⟩

/-- Witness for C2: the invariants hold after running
erase-insert-shrink-reserve on the concrete {1,2,3} scenario state. -/
theorem c2_invariants_witness :
    Hpp.ConsistencyInvs (s123.run [Op.er 1, Op.ins 4 40, Op.shrink, Op.reserve 9]) :=
  (c2_invariants_after_every_operation 4 Nat s123 1 5 6 40
    [Op.er 1, Op.ins 4 40, Op.shrink, Op.reserve 9]
    (by decide) (by decide) (by decide) (by decide)).2.2.2.2.2.2.2

/-- C3: inserting an identifier that already exists is a no-op in both
variants and both overloads — the stored value is not overwritten and the
state is returned unchanged (the move overload reports `false`).  In
particular, after `Insert(id, v1); Insert(id, v2)` on a fresh in-range
identifier, `Get(id)` still yields `v1`. -/
theorem c3_insert_idempotent
    (w : Nat) (α : Type) (s : Hpp.SparseSet w α) (id : Nat) (v1 v2 : α)
    (hWF : Hpp.WFcore s) (hid : id < s.NumSupportedElements)
    (hne : s.Exists id = false) :
    (∀ (t : Hpp.SparseSet w α) (v : α), t.Exists id = true →
        t.Insert id v = Except.ok t ∧ t.InsertMove id v = Except.ok (false, t)) ∧
    (∀ (u : Hdr.SparseSet w α) (v : α), u.Exists id = true →
        u.Add id v = Except.ok u ∧ u.AddMove id v = Except.ok u) ∧
    (afterVoid (s.Insert id v1)).Insert id v2 = Except.ok (afterVoid (s.Insert id v1)) ∧
    (afterVoid (s.Insert id v1)).InsertMove id v2 =
      Except.ok (false, afterVoid (s.Insert id v1)) ∧
    (afterVoid (s.Insert id v1)).Get id = some v1 := by
  obtain ⟨hex1, hget1, _⟩ := Hpp.insert_get s id v1 hWF hne hid
  refine ⟨?_, ?_, ?_, ?_, hget1⟩
  · intro t v htex
    exact Hpp.insert_noop t id v htex
  · intro u v huex
    constructor
    · unfold Hdr.SparseSet.Add
      rw [if_pos huex]
    · unfold Hdr.SparseSet.AddMove
      rw [if_pos huex]
  · exact (Hpp.insert_noop _ id v2 hex1).1
  · exact (Hpp.insert_noop _ id v2 hex1).2

/-- Witness for C3: inserting 77 then 88 under the fresh identifier 4 in
the {1,2,3} scenario leaves `Get(4) = 77`. -/
theorem c3_insert_idempotent_witness :
    (afterVoid (s123.Insert 4 (77 : Nat))).Insert 4 88 =
      Except.ok (afterVoid (s123.Insert 4 77)) ∧
    (afterVoid (s123.Insert 4 (77 : Nat))).Get 4 = some 77 :=
  ⟨(c3_insert_idempotent 4 Nat s123 4 77 88 (by decide) (by decide) (by decide)).2.2.1,
   (c3_insert_idempotent 4 Nat s123 4 77 88 (by decide) (by decide) (by decide)).2.2.2.2⟩

/-- C4: erasing an absent identifier is a pure no-op: the .hpp variant's
`Erase` returns `false` with the state unchanged, the .h variant's
`Remove` returns with the state unchanged (it has no return value to
carry a failure indicator); erasing an existing identifier in a
well-formed set succeeds and returns `true`. -/
theorem c4_erase_absent_noop
    (w : Nat) (α : Type) (s : Hpp.SparseSet w α) (t : Hdr.SparseSet w α)
    (id : Nat) (hWF : Hpp.WFcore s) :
    (s.Exists id = false → s.Erase id = Except.ok (false, s)) ∧
    (t.Exists id = false → t.Remove id = Except.ok t) ∧
    (s.Exists id = true → s.Erase id = Except.ok (true, afterBool (s.Erase id))) :=
  ⟨fun hne => Hpp.erase_absent s id hne,
   fun hne => Hdr.remove_absent t id hne,
   fun hex => Hpp.erase_success s id hWF hex⟩

/-- Witness for C4: erasing the absent identifier 7 (and the existing
identifier 2) in the {1,2,3} scenario. -/
theorem c4_erase_absent_noop_witness :
    s123.Erase 7 = Except.ok (false, s123) ∧
    (toHdr s123).Remove 7 = Except.ok (toHdr s123) ∧
    s123.Erase 2 = Except.ok (true, afterBool (s123.Erase 2)) :=
  ⟨(c4_erase_absent_noop 4 Nat s123 (toHdr s123) 7 (by decide)).1 (by decide),
   (c4_erase_absent_noop 4 Nat s123 (toHdr s123) 7 (by decide)).2.1 (by decide),
   (c4_erase_absent_noop 4 Nat s123 (toHdr s123) 2 (by decide)).2.2 (by decide)⟩

/-- C5: `Exists` and `GetIfExists` never fail (and, being `const`, are
modelled as pure functions of the state — they cannot mutate it):
out-of-range identifiers report absent, in-range identifiers exist
exactly when their sparse entry is not the sentinel, `GetIfExists`
always returns normally with exactly what `Get` would produce, and `Get`
on a non-existent identifier fails (`none` models the out-of-range
`at` throw). -/
theorem c5_safe_queries
    (w : Nat) (α : Type) (s : Hpp.SparseSet w α) (id : Nat)
    (hWF : Hpp.WFfull s) :
    (s.NumSupportedElements ≤ id → s.Exists id = false) ∧
    (s.Exists id = true ↔
      id < s.NumSupportedElements ∧ Hpp.sparseAt s id ≠ InvalidIndex w) ∧
    s.GetIfExists id = Except.ok (s.Get id) ∧
    (s.Exists id = false → s.GetIfExists id = Except.ok none ∧ s.Get id = none) ∧
    (s.Exists id = true →
      ∃ v, s.GetIfExists id = Except.ok (some v) ∧ s.Get id = some v) := by
  refine ⟨?_, ?_, Hpp.getIfExists_eq_get s id hWF, ?_, ?_⟩
  · intro h
    unfold Hpp.SparseSet.Exists
    rw [if_pos (show id ≥ s.m_ID_To_Element.length from h)]
  · constructor
    · intro hex
      exact ⟨Hpp.lt_length_of_exists s id hex, (Hpp.exists_true_iff s id).mp hex⟩
    · intro ⟨_, hval⟩
      exact (Hpp.exists_true_iff s id).mpr hval
  · intro hne
    have hnone := Hpp.get_none_of_absent s id hWF hne
    rw [Hpp.getIfExists_eq_get s id hWF, hnone]
    exact ⟨rfl, rfl⟩
  · intro hex
    obtain ⟨hlt, hget, hsome⟩ := Hpp.get_some_of_exists s id hWF.1 hex
    obtain ⟨v, hv⟩ := Option.isSome_iff_exists.mp hsome
    exact ⟨v, by rw [Hpp.getIfExists_eq_get s id hWF, hv], hv⟩

/-- Witness for C5: queries on the {1,2,3} scenario for the existing
identifier 2 and the out-of-range identifier 12. -/
theorem c5_safe_queries_witness :
    s123.GetIfExists 2 = Except.ok (s123.Get 2) ∧
    s123.Exists 12 = false :=
  ⟨(c5_safe_queries 4 Nat s123 2 (by decide)).2.2.1,
   (c5_safe_queries 4 Nat s123 12 (by decide)).1 (by decide)⟩

/-- C6: `Reserve(n)` grows the sparse table to support identifiers
`[0, n)` — afterwards its length is `max old n`, previously supported
slots are unchanged and every slot at or beyond the old support reads as
`Invalid` (absent); it is a no-op when `n` does not exceed the current
support and never shrinks, and `NumSupportedElements` never decreases
under any sequence of public operations. -/
theorem c6_reserve_monotone
    (w : Nat) (α : Type) [Inhabited α] (s : Hpp.SparseSet w α)
    (n : Nat) (ops : List (Op α)) :
    (s.Reserve n).NumSupportedElements = max s.NumSupportedElements n ∧
    (n ≤ s.NumSupportedElements → s.Reserve n = s) ∧
    (∀ j, j < s.NumSupportedElements →
      Hpp.sparseAt (s.Reserve n) j = Hpp.sparseAt s j) ∧
    (∀ j, s.NumSupportedElements ≤ j →
      Hpp.sparseAt (s.Reserve n) j = InvalidIndex w) ∧
    s.NumSupportedElements ≤ (s.Reserve n).NumSupportedElements ∧
    s.NumSupportedElements ≤ (s.run ops).NumSupportedElements := by
  refine ⟨Hpp.numSupported_reserve s n, Hpp.reserve_noop s n,
    Hpp.reserve_old_slots s n, Hpp.reserve_new_slots s n, ?_,
    Hpp.numSupported_run s ops⟩
  rw [Hpp.numSupported_reserve s n]
  omega

/-- C7: `ShrinkToFit` changes no observable query result: the sparse
table and the counter are untouched, every `Exists` and every `Get`
result is preserved, and only the dense arrays' storage beyond `count`
is released. -/
theorem c7_shrink_neutral
    (w : Nat) (α : Type) [Inhabited α] (s : Hpp.SparseSet w α)
    (hWF : Hpp.WFfull s) :
    s.ShrinkToFit.m_ID_To_Element = s.m_ID_To_Element ∧
    s.ShrinkToFit.m_CurrentLast = s.m_CurrentLast ∧
    (∀ id, s.ShrinkToFit.Exists id = s.Exists id) ∧
    (∀ id, s.ShrinkToFit.Get id = s.Get id) ∧
    s.ShrinkToFit.m_Elements = s.m_Elements.take s.m_CurrentLast ∧
    s.ShrinkToFit.m_Element_To_ID = s.m_Element_To_ID.take s.m_CurrentLast := by
  obtain ⟨⟨hlen, hcle, hcinv, hLinv, hi1, hi2⟩, hful⟩ := hWF
  refine ⟨rfl, rfl, fun id => Hpp.exists_shrink s id,
    fun id => Hpp.get_shrink s id ⟨⟨hlen, hcle, hcinv, hLinv, hi1, hi2⟩, hful⟩, ?_, ?_⟩
  · show listResize s.m_Elements s.m_CurrentLast default = _
    exact listResize_of_le _ _ _ (by omega)
  · show listResize s.m_Element_To_ID s.m_CurrentLast 0 = _
    exact listResize_of_le _ _ _ (by omega)

/-- Witness for C7: shrinking the {1,2,3} scenario state (whose dense
arrays hold a stale slot after `Erase(1)` ran on a copy) preserves all
queries. -/
theorem c7_shrink_neutral_witness :
    (∀ id, s123e.ShrinkToFit.Get id = s123e.Get id) ∧
    s123e.ShrinkToFit.m_Elements = s123e.m_Elements.take s123e.m_CurrentLast :=
  ⟨(c7_shrink_neutral 4 Nat s123e (by decide)).2.2.2.1,
   (c7_shrink_neutral 4 Nat s123e (by decide)).2.2.2.2.1⟩

/-- The states used to separate the two variants: make a set holding
identifier 1, copy-construct it, then insert identifier 2 into the copy —
in the .hpp variant (whose compiler-generated copy constructor copies
`m_CurrentLast`). -/
def c8hpp : Hpp.SparseSet 4 Nat :=
  afterVoid ((Hpp.SparseSet.copyCtor (afterVoid
    ((Hpp.SparseSet.mkSized 4 Nat 8).Insert 1 10))).Insert 2 20)

/-- The same sequence of corresponding calls in the .h variant (whose
user-written copy constructor drops `m_CurrentLast`). -/
def c8hdr : Hdr.SparseSet 4 Nat :=
  afterVoid ((Hdr.SparseSet.copyCtor (afterVoid
    ((Hdr.SparseSet.mkSized 4 Nat 8).Add 1 10))).Add 2 20)

/-- C8 counterexample: the two variants are NOT behaviorally identical
over all corresponding operation sequences.  After sized construction,
`Insert/Add (1, 10)`, copy construction, `Insert/Add (2, 20)` — equal
inputs throughout — the corresponding query `Get(1)` answers 10 in the
.hpp variant but 20 in the .h variant (the .h copy lost the live count,
so the second insertion overwrote identifier 1's dense slot). -/
theorem c8_counterexample :
    c8hpp.Get 1 = some 10 ∧ c8hdr.Get 1 = some 20 ∧
    c8hpp.Get 1 ≠ c8hdr.Get 1 ∧ toHdr c8hpp ≠ c8hdr := by
  refine ⟨by decide, by decide, by decide, by decide⟩

/-- C8 as amended: the two variants are behaviorally identical for the
member functions proper — default and sized construction, `Insert`/`Add`
(both overloads), `Erase`/`Remove`, `ShrinkToFit`, `Reserve`/`ExtendTo`,
and all queries — over every sequence of corresponding calls with equal
inputs; equivalence fails only for the copy (and move) special member
functions, where the .h variant drops `m_CurrentLast` (claim C9's bug,
exhibited by the counterexample). -/
theorem c8_amended_equivalence
    (w : Nat) (α : Type) [Inhabited α] (s : Hpp.SparseSet w α)
    (ops : List (Op α)) (id m : Nat) :
    toHdr (Hpp.SparseSet.mkEmpty w α) = Hdr.SparseSet.mkEmpty w α ∧
    toHdr (Hpp.SparseSet.mkSized w α m) = Hdr.SparseSet.mkSized w α m ∧
    (toHdr s).run ops = toHdr (s.run ops) ∧
    (toHdr s).Exists id = s.Exists id ∧
    (toHdr s).Get id = s.Get id ∧
    (toHdr s).GetIfExists id = s.GetIfExists id ∧
    (toHdr s).NumSupportedElements = s.NumSupportedElements ∧
    (toHdr s).GetData = s.GetData ∧
    (toHdr s).m_CurrentLast = s.m_CurrentLast ∧
    (∀ t : Hdr.SparseSet w α, toHdr (toHpp t) = t) :=
  ⟨toHdr_mkEmpty, toHdr_mkSized m, run_toHdr s ops, rfl, rfl, rfl, rfl, rfl, rfl,
   fun t => toHdr_toHpp t⟩

/-- C9: the .h variant's copy constructor copies the three vectors but
leaves the copy's `m_CurrentLast` at its default-initialized 0, and its
copy assignment assigns the three vectors but leaves the destination's
previous `m_CurrentLast`; the copied sparse table still reports the
source's identifiers as present. -/
theorem c9_hdr_copy_drops_count
    (w : Nat) (α : Type) (other dst : Hdr.SparseSet w α) :
    (Hdr.SparseSet.copyCtor other).m_CurrentLast = 0 ∧
    (Hdr.SparseSet.copyCtor other).m_ID_To_Element = other.m_ID_To_Element ∧
    (Hdr.SparseSet.copyCtor other).m_Element_To_ID = other.m_Element_To_ID ∧
    (Hdr.SparseSet.copyCtor other).m_Elements = other.m_Elements ∧
    (∀ id, (Hdr.SparseSet.copyCtor other).Exists id = other.Exists id) ∧
    (Hdr.SparseSet.copyAssign dst other).m_CurrentLast = dst.m_CurrentLast ∧
    (Hdr.SparseSet.copyAssign dst other).m_ID_To_Element = other.m_ID_To_Element ∧
    (Hdr.SparseSet.copyAssign dst other).m_Element_To_ID = other.m_Element_To_ID ∧
    (Hdr.SparseSet.copyAssign dst other).m_Elements = other.m_Elements :=
  ⟨rfl, rfl, rfl, rfl, fun _ => rfl, rfl, rfl, rfl, rfl⟩

namespace Hpp

theorem exists_out_of_range (s : SparseSet w α) (id : Nat)
    (h : s.m_ID_To_Element.length ≤ id) : s.Exists id = false := by
  unfold SparseSet.Exists
  rw [if_pos (show id ≥ s.m_ID_To_Element.length from h)]

end Hpp

/-- C10: in both variants, `Insert`/`Add` on an out-of-range identifier
(reported absent by `Exists`) throws out of `m_ID_To_Element.at(id)`,
but only after the dense arrays were already mutated — the stale slot at
`m_CurrentLast` overwritten when the dense arrays still have room, a new
entry appended otherwise — while the sparse table and `m_CurrentLast`
are unchanged by the failed call: the failure is not atomic. -/
theorem c10_insert_out_of_range_not_atomic
    (w : Nat) (α : Type) (s : Hpp.SparseSet w α) (t : Hdr.SparseSet w α)
    (id : Nat) (v : α)
    (hWF : Hpp.WFcore s) (hWFt : Hpp.WFcore (toHpp t))
    (hid : s.NumSupportedElements ≤ id) (hidt : t.NumSupportedElements ≤ id) :
    s.Exists id = false ∧
    (s.m_CurrentLast < s.m_Elements.length →
      s.Insert id v = Except.error
        ⟨s.m_ID_To_Element, s.m_Element_To_ID.set s.m_CurrentLast id,
         s.m_Elements.set s.m_CurrentLast v, s.m_CurrentLast⟩) ∧
    (s.m_Elements.length ≤ s.m_CurrentLast →
      s.Insert id v = Except.error
        ⟨s.m_ID_To_Element, s.m_Element_To_ID ++ [id], s.m_Elements ++ [v],
         s.m_CurrentLast⟩) ∧
    t.Exists id = false ∧
    (t.m_CurrentLast < t.m_Elements.length →
      t.Add id v = Except.error
        ⟨t.m_ID_To_Element, t.m_Element_To_ID.set t.m_CurrentLast id,
         t.m_Elements.set t.m_CurrentLast v, t.m_CurrentLast⟩) ∧
    (t.m_Elements.length ≤ t.m_CurrentLast →
      t.Add id v = Except.error
        ⟨t.m_ID_To_Element, t.m_Element_To_ID ++ [id], t.m_Elements ++ [v],
         t.m_CurrentLast⟩) := by
  have hne : s.Exists id = false := Hpp.exists_out_of_range s id hid
  have hnet : (toHpp t).Exists id = false := Hpp.exists_out_of_range (toHpp t) id hidt
  have hadd := add_eq_insert (toHpp t) id v
  rw [toHdr_toHpp] at hadd
  refine ⟨hne, ?_, ?_, ?_, ?_, ?_⟩
  · intro hlt
    exact Hpp.insert_err_reuse s id v hne hid hWF.1 hlt
  · intro hge
    exact Hpp.insert_err_push s id v hne hid hge
  · unfold Hdr.SparseSet.Exists
    rw [if_pos (show id ≥ t.m_ID_To_Element.length from hidt)]
  · intro hlt
    rw [hadd, Hpp.insert_err_reuse (toHpp t) id v hnet hidt hWFt.1 hlt]
    rfl
  · intro hge
    rw [hadd, Hpp.insert_err_push (toHpp t) id v hnet hidt hge]
    rfl

/-- Witness for C10: inserting under the out-of-range identifier 12 in
the {1,2,3} scenario (dense arrays full, so a new entry is appended)
fails and leaves the dense arrays mutated. -/
theorem c10_insert_out_of_range_witness :
    s123.Exists 12 = false ∧
    s123.Insert 12 (50 : Nat) = Except.error
      ⟨s123.m_ID_To_Element, s123.m_Element_To_ID ++ [12], s123.m_Elements ++ [50],
       s123.m_CurrentLast⟩ :=
  ⟨(c10_insert_out_of_range_not_atomic 4 Nat s123 (toHdr s123) 12 50
      (by decide) (by decide) (by decide) (by decide)).1,
   (c10_insert_out_of_range_not_atomic 4 Nat s123 (toHdr s123) 12 50
      (by decide) (by decide) (by decide) (by decide)).2.2.1 (by decide)⟩
